import Mathlib

/-!
Verification of the `cab.py` CAB-archive reader/writer.

Bytes are modelled as `Nat` (a Python `bytes` object guarantees values
below 256; where a theorem needs that bound it is an explicit hypothesis
or follows from a writer-side range check).  Buffers are `List Nat`.
Python exceptions are modelled by the `PyErr` type and fallible code
returns `Except PyErr _`.
-/

set_option maxHeartbeats 1000000

/-- Python exception kinds that `cab.py` can actually raise.
`structError` models `struct.error` (bad pack/unpack size or range),
`assertionError` models a failing `assert` statement,
`keyError` models a dictionary lookup miss,
`indexError` models a list index out of range,
`valueError` models `bytearray` extension with an int outside 0..255. -/
inductive PyErr where
  | structError
  | assertionError
  | keyError
  | indexError
  | valueError
deriving DecidableEq, Repr

/-- `checksum(buf, seed)` from cab.py: XOR-fold the buffer four bytes at a
time as the word `b0 | b1<<8 | b2<<16 | b3<<24`, then fold the 1-3 byte
tail exactly as the source does (`rest==1`: `buf[last]`; `rest==2`:
`(buf[last]<<8)|buf[last+1]`; `rest==3`:
`(buf[last]<<16)|(buf[last+1]<<8)|buf[last+2]`). -/
def checksum : List Nat → Nat → Nat
  | [], seed => seed
  | [b0], seed => seed ^^^ b0
  | [b0, b1], seed => seed ^^^ ((b0 <<< 8) ||| b1)
  | [b0, b1, b2], seed => seed ^^^ ((b0 <<< 16) ||| (b1 <<< 8) ||| b2)
  | b0 :: b1 :: b2 :: b3 :: rest, seed =>
      checksum rest (seed ^^^ (b0 ||| b1 <<< 8 ||| b2 <<< 16 ||| b3 <<< 24))

theorem checksum_nil (seed : Nat) : checksum [] seed = seed := rfl

/-- Low bits and shifted-or: for `b < 2^k`, `x <<< k ||| b = x * 2^k + b`. -/
theorem shl_or_eq_add (x b k : Nat) (hb : b < 2 ^ k) :
    (x <<< k) ||| b = x * 2 ^ k + b := by
  rw [Nat.shiftLeft_eq, Nat.mul_comm x, ← Nat.mul_add_lt_is_or hb x, Nat.mul_comm]

theorem or_low_eq_add (x b k : Nat) (hb : b < 2 ^ k) (hx : ∃ y, x = y <<< k) :
    x ||| b = x + b := by
  obtain ⟨y, rfl⟩ := hx
  rw [shl_or_eq_add _ _ _ hb, Nat.shiftLeft_eq]

/-- The 32-bit word the checksum fold builds from four bytes, in closed
arithmetic form. -/
theorem word_eq (b0 b1 b2 b3 : Nat) (h0 : b0 < 256) (h1 : b1 < 256)
    (h2 : b2 < 256) (h3 : b3 < 256) :
    b0 ||| b1 <<< 8 ||| b2 <<< 16 ||| b3 <<< 24 =
      b0 + b1 * 256 + b2 * 65536 + b3 * 16777216 := by
  have e1 : b1 <<< 8 ||| b0 = b1 * 256 + b0 := shl_or_eq_add b1 b0 8 h0
  have hlt1 : b1 * 256 + b0 < 2 ^ 16 := by omega
  have e2 : b2 <<< 16 ||| (b1 * 256 + b0) = b2 * 65536 + (b1 * 256 + b0) :=
    shl_or_eq_add b2 _ 16 hlt1
  have hlt2 : b2 * 65536 + (b1 * 256 + b0) < 2 ^ 24 := by omega
  have e3 : b3 <<< 24 ||| (b2 * 65536 + (b1 * 256 + b0)) =
      b3 * 16777216 + (b2 * 65536 + (b1 * 256 + b0)) :=
    shl_or_eq_add b3 _ 24 hlt2
  calc b0 ||| b1 <<< 8 ||| b2 <<< 16 ||| b3 <<< 24
      = b3 <<< 24 ||| (b2 <<< 16 ||| (b1 <<< 8 ||| b0)) := by
        apply Nat.eq_of_testBit_eq
        intro i
        simp only [Nat.testBit_or]
        cases Nat.testBit b0 i <;> cases Nat.testBit (b1 <<< 8) i <;>
          cases Nat.testBit (b2 <<< 16) i <;> cases Nat.testBit (b3 <<< 24) i <;> rfl
    _ = b3 * 16777216 + (b2 * 65536 + (b1 * 256 + b0)) := by
        rw [e1, e2, e3]
    _ = b0 + b1 * 256 + b2 * 65536 + b3 * 16777216 := by omega

theorem tail2_eq (b0 b1 : Nat) (h1 : b1 < 256) :
    (b0 <<< 8) ||| b1 = b0 * 256 + b1 := shl_or_eq_add b0 b1 8 h1

theorem tail3_eq (b0 b1 b2 : Nat) (h1 : b1 < 256) (h2 : b2 < 256) :
    (b0 <<< 16) ||| (b1 <<< 8) ||| b2 = b0 * 65536 + b1 * 256 + b2 := by
  have e1 : (b1 <<< 8) ||| b2 = b1 * 256 + b2 := shl_or_eq_add b1 b2 8 h2
  have hlt : b1 * 256 + b2 < 2 ^ 16 := by omega
  rw [Nat.or_assoc, e1, shl_or_eq_add b0 _ 16 hlt]
  omega

/-- The checksum threads its seed purely through XOR. -/
theorem checksum_seed : ∀ (buf : List Nat) (seed : Nat),
    checksum buf seed = seed ^^^ checksum buf 0
  | [], seed => by simp [checksum]
  | [b0], seed => by simp [checksum]
  | [b0, b1], seed => by simp [checksum]
  | [b0, b1, b2], seed => by simp [checksum]
  | b0 :: b1 :: b2 :: b3 :: rest, seed => by
      simp only [checksum]
      rw [checksum_seed rest, checksum_seed rest (0 ^^^ _)]
      simp [Nat.xor_assoc]

/-- For genuine byte buffers the checksum stays a 32-bit value. -/
theorem checksum_lt : ∀ (buf : List Nat) (seed : Nat),
    (∀ x ∈ buf, x < 256) → seed < 2 ^ 32 → checksum buf seed < 2 ^ 32
  | [], seed, _, hs => hs
  | [b0], seed, hb, hs => by
      have h0 : b0 < 256 := hb b0 (by simp)
      simp only [checksum]
      exact Nat.xor_lt_two_pow hs (by omega)
  | [b0, b1], seed, hb, hs => by
      have h0 : b0 < 256 := hb b0 (by simp)
      have h1 : b1 < 256 := hb b1 (by simp)
      simp only [checksum]
      rw [tail2_eq b0 b1 h1]
      exact Nat.xor_lt_two_pow hs (by omega)
  | [b0, b1, b2], seed, hb, hs => by
      have h0 : b0 < 256 := hb b0 (by simp)
      have h1 : b1 < 256 := hb b1 (by simp)
      have h2 : b2 < 256 := hb b2 (by simp)
      simp only [checksum]
      rw [tail3_eq b0 b1 b2 h1 h2]
      exact Nat.xor_lt_two_pow hs (by omega)
  | b0 :: b1 :: b2 :: b3 :: rest, seed, hb, hs => by
      have h0 : b0 < 256 := hb b0 (by simp)
      have h1 : b1 < 256 := hb b1 (by simp)
      have h2 : b2 < 256 := hb b2 (by simp)
      have h3 : b3 < 256 := hb b3 (by simp)
      simp only [checksum]
      refine checksum_lt rest _ (fun x hx => hb x (by simp [hx])) ?_
      rw [word_eq b0 b1 b2 b3 h0 h1 h2 h3]
      exact Nat.xor_lt_two_pow hs (by omega)

/-- Splitting a buffer at a word-aligned point splits the checksum fold. -/
theorem checksum_append_aligned : ∀ (pre : List Nat), pre.length % 4 = 0 →
    ∀ (suf : List Nat) (seed : Nat),
    checksum (pre ++ suf) seed = checksum suf (checksum pre seed)
  | [], _, suf, seed => rfl
  | [_], h4, _, _ => by simp at h4
  | [_, _], h4, _, _ => by simp at h4
  | [_, _, _], h4, _, _ => by simp at h4
  | b0 :: b1 :: b2 :: b3 :: rest, h4, suf, seed => by
      have hr : rest.length % 4 = 0 := by
        simp only [List.length_cons] at h4
        omega
      simp only [List.cons_append]
      have hne : ∀ (l : List Nat) (s : Nat),
          checksum (b0 :: b1 :: b2 :: b3 :: l) s =
            checksum l (s ^^^ (b0 ||| b1 <<< 8 ||| b2 <<< 16 ||| b3 <<< 24)) :=
        fun l s => by cases l <;> rfl
      rw [hne, hne, checksum_append_aligned rest hr]

theorem xor_left_cancel_nat {a b c : Nat} (h : c ^^^ a = c ^^^ b) : a = b := by
  have : c ^^^ (c ^^^ a) = c ^^^ (c ^^^ b) := by rw [h]
  simpa [← Nat.xor_assoc] using this

/-- Changing exactly one byte of a buffer changes `checksum buf 0`. -/
theorem checksum_zero_ne : ∀ (buf buf' : List Nat) (i : Nat),
    (∀ x ∈ buf, x < 256) → (∀ x ∈ buf', x < 256) →
    buf.length = buf'.length →
    buf.get? i ≠ buf'.get? i →
    (∀ j, j ≠ i → buf.get? j = buf'.get? j) →
    checksum buf 0 ≠ checksum buf' 0
  | [], [], i, _, _, _, hne, _ => absurd rfl hne
  | [], _ :: _, _, _, _, hlen, _, _ => by simp at hlen
  | _ :: _, [], _, _, _, hlen, _, _ => by simp at hlen
  | [a], [a'], i, hb, hb', _, hne, _ => by
      match i with
      | 0 =>
        simp only [List.get?] at hne
        simp only [checksum, Nat.zero_xor]
        intro h
        exact hne (by rw [h])
      | j + 1 => exact absurd rfl hne
  | [a, b], [a', b'], i, hb, hb', _, hne, hag => by
      have ha : a < 256 := hb a (by simp)
      have hbb : b < 256 := hb b (by simp)
      have ha' : a' < 256 := hb' a' (by simp)
      have hbb' : b' < 256 := hb' b' (by simp)
      simp only [checksum, Nat.zero_xor, tail2_eq a b hbb, tail2_eq a' b' hbb']
      match i with
      | 0 =>
        simp only [List.get?] at hne
        have : a ≠ a' := fun h => hne (by rw [h])
        omega
      | 1 =>
        simp only [List.get?] at hne
        have : b ≠ b' := fun h => hne (by rw [h])
        omega
      | j + 2 => exact absurd rfl hne
  | [a, b, c], [a', b', c'], i, hb, hb', _, hne, hag => by
      have ha : a < 256 := hb a (by simp)
      have hbb : b < 256 := hb b (by simp)
      have hc : c < 256 := hb c (by simp)
      have ha' : a' < 256 := hb' a' (by simp)
      have hbb' : b' < 256 := hb' b' (by simp)
      have hc' : c' < 256 := hb' c' (by simp)
      simp only [checksum, Nat.zero_xor, tail3_eq a b c hbb hc, tail3_eq a' b' c' hbb' hc']
      match i with
      | 0 =>
        simp only [List.get?] at hne
        have : a ≠ a' := fun h => hne (by rw [h])
        omega
      | 1 =>
        simp only [List.get?] at hne
        have : b ≠ b' := fun h => hne (by rw [h])
        omega
      | 2 =>
        simp only [List.get?] at hne
        have : c ≠ c' := fun h => hne (by rw [h])
        omega
      | j + 3 => exact absurd rfl hne
  | a :: b :: c :: d :: rest, a' :: b' :: c' :: d' :: rest', i, hb, hb', hlen, hne, hag => by
      have ha : a < 256 := hb a (by simp)
      have hbb : b < 256 := hb b (by simp)
      have hc : c < 256 := hb c (by simp)
      have hd : d < 256 := hb d (by simp)
      have ha' : a' < 256 := hb' a' (by simp)
      have hbb' : b' < 256 := hb' b' (by simp)
      have hc' : c' < 256 := hb' c' (by simp)
      have hd' : d' < 256 := hb' d' (by simp)
      have hstep : ∀ (l : List Nat) (x0 x1 x2 x3 : Nat),
          checksum (x0 :: x1 :: x2 :: x3 :: l) 0 =
            (x0 ||| x1 <<< 8 ||| x2 <<< 16 ||| x3 <<< 24) ^^^ checksum l 0 := by
        intro l x0 x1 x2 x3
        have h1 : checksum (x0 :: x1 :: x2 :: x3 :: l) 0 =
            checksum l (0 ^^^ (x0 ||| x1 <<< 8 ||| x2 <<< 16 ||| x3 <<< 24)) := by
          cases l <;> rfl
        rw [h1, Nat.zero_xor, checksum_seed]
      rw [hstep, hstep]
      rcases Nat.lt_or_ge i 4 with hi | hi
      · -- the changed byte sits in the leading word; the tails agree
        have hrest : rest = rest' := by
          apply List.ext_get?
          intro j
          have h1 : rest.get? j = (a :: b :: c :: d :: rest).get? (j + 4) := rfl
          have h2 : rest'.get? j = (a' :: b' :: c' :: d' :: rest').get? (j + 4) := rfl
          rw [h1, h2]
          exact hag (j + 4) (by omega)
        subst hrest
        have hw : (a ||| b <<< 8 ||| c <<< 16 ||| d <<< 24) ≠
            (a' ||| b' <<< 8 ||| c' <<< 16 ||| d' <<< 24) := by
          rw [word_eq a b c d ha hbb hc hd, word_eq a' b' c' d' ha' hbb' hc' hd']
          match i, hi with
          | 0, _ =>
            simp only [List.get?] at hne
            have : a ≠ a' := fun h => hne (by rw [h])
            omega
          | 1, _ =>
            simp only [List.get?] at hne
            have : b ≠ b' := fun h => hne (by rw [h])
            omega
          | 2, _ =>
            simp only [List.get?] at hne
            have : c ≠ c' := fun h => hne (by rw [h])
            omega
          | 3, _ =>
            simp only [List.get?] at hne
            have : d ≠ d' := fun h => hne (by rw [h])
            omega
        intro h
        apply hw
        have hx : ∀ (u v w : Nat), u ^^^ w = v ^^^ w → u = v := by
          intro u v w h'
          have : (u ^^^ w) ^^^ w = (v ^^^ w) ^^^ w := by rw [h']
          simpa [Nat.xor_assoc] using this
        exact hx _ _ _ h
      · -- the first word agrees; recurse into the tails
        have hEq : ∀ j, j < 4 →
            (a :: b :: c :: d :: rest).get? j = (a' :: b' :: c' :: d' :: rest').get? j :=
          fun j hj => hag j (by omega)
        have haa : a = a' := by have := hEq 0 (by omega); simpa using this
        have hbb2 : b = b' := by have := hEq 1 (by omega); simpa using this
        have hcc : c = c' := by have := hEq 2 (by omega); simpa using this
        have hdd : d = d' := by have := hEq 3 (by omega); simpa using this
        subst haa; subst hbb2; subst hcc; subst hdd
        have hrec : checksum rest 0 ≠ checksum rest' 0 := by
          refine checksum_zero_ne rest rest' (i - 4)
            (fun x hx => hb x (by simp [hx]))
            (fun x hx => hb' x (by simp [hx]))
            (by simpa using hlen) ?_ ?_
          · have h1 : rest.get? (i - 4) = (a :: b :: c :: d :: rest).get? i := by
              match i, hi with
              | j + 4, _ => rfl
            have h2 : rest'.get? (i - 4) = (a :: b :: c :: d :: rest').get? i := by
              match i, hi with
              | j + 4, _ => rfl
            rw [h1, h2]
            exact hne
          · intro j hj
            have h1 : rest.get? j = (a :: b :: c :: d :: rest).get? (j + 4) := rfl
            have h2 : rest'.get? j = (a :: b :: c :: d :: rest').get? (j + 4) := rfl
            rw [h1, h2]
            exact hag (j + 4) (by omega)
        intro h
        exact hrec (xor_left_cancel_nat h)

/-- Claim C2 counterexample: on the 2-byte buffer `[1, 2]` with seed 0 the
code folds the tail as the big-endian word `1<<8 | 2 = 258`, not the
little-endian word `1 | 2<<8 = 513` the claim states. -/
theorem c2_counterexample :
    checksum [1, 2] 0 = 258 ∧ (0 ^^^ (1 ||| 2 <<< 8)) = 513 ∧
      checksum [1, 2] 0 ≠ 0 ^^^ (1 ||| 2 <<< 8) := by
  refine ⟨rfl, rfl, ?_⟩
  decide

/-- Claim C2 (amended): for a buffer whose length is not a multiple of 4,
`checksum` XORs the trailing 1-3 remainder bytes into the fold as a partial
BIG-endian word: 1 tail byte gives `byte0`; 2 give `byte0<<8 | byte1`;
3 give `byte0<<16 | byte1<<8 | byte2` (`byte0` the first tail byte in
buffer order). -/
theorem c2_tail_big_endian (pre : List Nat) (seed a b c : Nat)
    (h4 : pre.length % 4 = 0) :
    checksum (pre ++ [a]) seed = checksum pre seed ^^^ a ∧
    checksum (pre ++ [a, b]) seed = checksum pre seed ^^^ ((a <<< 8) ||| b) ∧
    checksum (pre ++ [a, b, c]) seed =
      checksum pre seed ^^^ ((a <<< 16) ||| (b <<< 8) ||| c) := by
  refine ⟨?_, ?_, ?_⟩ <;> rw [checksum_append_aligned pre h4] <;> rfl

/-- Claim C2 witness: the amended tail rule evaluated on a concrete
word-aligned prefix. -/
theorem c2_tail_big_endian_witness :
    checksum ([1, 2, 3, 4] ++ [9]) 5 = checksum [1, 2, 3, 4] 5 ^^^ 9 ∧
    checksum ([1, 2, 3, 4] ++ [9, 8]) 5 =
      checksum [1, 2, 3, 4] 5 ^^^ ((9 <<< 8) ||| 8) ∧
    checksum ([1, 2, 3, 4] ++ [9, 8, 7]) 5 =
      checksum [1, 2, 3, 4] 5 ^^^ ((9 <<< 16) ||| (8 <<< 8) ||| 7) :=
  c2_tail_big_endian [1, 2, 3, 4] 5 9 8 7 (by decide)

/-- Claim C9: `checksum buf seed = seed ^^^ checksum buf 0`; for byte-valued
buffers the result stays below `2^32` whenever the seed does; and changing a
single byte of the buffer changes the checksum. -/
theorem c9_checksum_algebra (buf buf' : List Nat) (seed i : Nat)
    (hb : ∀ x ∈ buf, x < 256) (hb' : ∀ x ∈ buf', x < 256)
    (hlen : buf.length = buf'.length) (hseed : seed < 2 ^ 32)
    (hne : buf.get? i ≠ buf'.get? i)
    (hag : ∀ j, j ≠ i → buf.get? j = buf'.get? j) :
    checksum buf seed = seed ^^^ checksum buf 0 ∧
    checksum buf seed < 2 ^ 32 ∧
    checksum buf seed ≠ checksum buf' seed := by
  refine ⟨checksum_seed buf seed, checksum_lt buf seed hb hseed, ?_⟩
  rw [checksum_seed buf seed, checksum_seed buf' seed]
  intro h
  exact checksum_zero_ne buf buf' i hb hb' hlen hne hag (xor_left_cancel_nat h)

/-- Claim C9 witness: concrete buffers `[1,2,3]` and `[1,9,3]` differing
only at index 1, with seed 7. -/
theorem c9_checksum_algebra_witness :
    checksum [1, 2, 3] 7 = 7 ^^^ checksum [1, 2, 3] 0 ∧
    checksum [1, 2, 3] 7 < 2 ^ 32 ∧
    checksum [1, 2, 3] 7 ≠ checksum [1, 9, 3] 7 :=
  c9_checksum_algebra [1, 2, 3] [1, 9, 3] 7 1 (by decide) (by decide) rfl
    (by decide) (by decide)
    (fun j hj => by
      match j with
      | 0 => rfl
      | 1 => exact absurd rfl hj
      | n + 2 => match n with
        | 0 => rfl
        | m + 1 => rfl)

/-! ### Binary reading primitives

`BinReader.read` on format codes `B`/`<H`/`<I`/`%ds` is modelled by
functions that peel the decoded value off the front of the remaining
buffer (`struct.unpack_from` raises `struct.error` when fewer bytes remain
than the format needs).  The absolute offset `self.f.br.off` is threaded
separately where the source consults it. -/

/-- Read one unsigned byte (`struct` format `B`). -/
def readU8s : List Nat → Except PyErr (Nat × List Nat)
  | [] => .error .structError
  | b :: r => .ok (b, r)

/-- Read a little-endian unsigned 16-bit integer (`struct` format `<H`). -/
def readU16s : List Nat → Except PyErr (Nat × List Nat)
  | b0 :: b1 :: r => .ok (b0 + 256 * b1, r)
  | _ => .error .structError

/-- Read a little-endian unsigned 32-bit integer (`struct` format `<I`). -/
def readU32s : List Nat → Except PyErr (Nat × List Nat)
  | b0 :: b1 :: b2 :: b3 :: r =>
      .ok (b0 + 256 * b1 + 65536 * b2 + 16777216 * b3, r)
  | _ => .error .structError

/-- Read a fixed-length byte array (`struct` format `%ds`). -/
def readNs (n : Nat) (l : List Nat) : Except PyErr (List Nat × List Nat) :=
  if n ≤ l.length then .ok (l.take n, l.drop n) else .error .structError

/-- `BinReader.read_cstring`: bytes up to (excluding) the first NUL; an
exhausted buffer before the NUL is a `struct.error` from the inner
single-byte read. -/
def readCString : List Nat → Except PyErr (List Nat × List Nat)
  | [] => .error .structError
  | b :: r =>
      if b = 0 then .ok ([], r)
      else do
        let (s, r2) ← readCString r
        .ok (b :: s, r2)

/-- One `CFFOLDER` record as parsed by `CABFile.__init__`. -/
structure CFFolderRec where
  coffCabStart : Nat
  cCFData : Nat
  typeCompress : Nat
  abReserve : List Nat
deriving DecidableEq, Repr

/-- One `CFFILE` record as parsed by `CABFile.__init__`. -/
structure CFFileRec where
  cbFile : Nat
  uoffFolderStart : Nat
  iFolder : Nat
  date : Nat
  time : Nat
  attribs : Nat
  szName : List Nat
deriving DecidableEq, Repr

/-- One `CFDATA` record as parsed by `CABFile.__init__`.  `raw` is the
sub-blob's buffer (`cdata.br.buf`, the whole suffix of the cabinet buffer
starting at this block) and `size` its `read_size()` (bytes consumed). -/
structure CFDataRec where
  csum : Nat
  cbData : Nat
  cbUncomp : Nat
  abReserve : List Nat
  ab : List Nat
  raw : List Nat
  size : Nat
deriving DecidableEq, Repr

/-- The record set `CABFile.__init__` builds: header fields, folder/file
directories, data blocks, and the offset-indexed data-block map. -/
structure CABFile where
  signature : List Nat
  cbCabinet : Nat
  coffFiles : Nat
  vMinor : Nat
  vMajor : Nat
  cFolders : Nat
  cFiles : Nat
  flags : Nat
  setID : Nat
  iCabinet : Nat
  cbCFHeader : Option Nat
  cbCFFolder : Option Nat
  cbCFData : Option Nat
  szCabinetPrev : Option (List Nat)
  szDiskPrev : Option (List Nat)
  szCabinetNext : Option (List Nat)
  szDiskNext : Option (List Nat)
  abReserve : List Nat
  folders : List CFFolderRec
  files : List CFFileRec
  datas : List CFDataRec
  data_off : List (Nat × CFDataRec)
deriving DecidableEq, Repr

/-- Parse `cFolders` back-to-back `CFFOLDER` records (each over a fresh
sub-blob whose consumed size advances the outer cursor). -/
def parseFolders (Fres : Nat) : Nat → List Nat → Except PyErr (List CFFolderRec × List Nat)
  | 0, rem => .ok ([], rem)
  | n + 1, rem => do
      let (coffCabStart, r1) ← readU32s rem
      let (cCFData, r2) ← readU16s r1
      let (typeCompress, r3) ← readU16s r2
      let (abReserve, r4) ← readNs Fres r3
      let (rest, r5) ← parseFolders Fres n r4
      .ok ({ coffCabStart, cCFData, typeCompress, abReserve } :: rest, r5)

/-- Parse `cFiles` back-to-back `CFFILE` records. -/
def parseFiles : Nat → List Nat → Except PyErr (List CFFileRec × List Nat)
  | 0, rem => .ok ([], rem)
  | n + 1, rem => do
      let (cbFile, r1) ← readU32s rem
      let (uoffFolderStart, r2) ← readU32s r1
      let (iFolder, r3) ← readU16s r2
      let (date, r4) ← readU16s r3
      let (time, r5) ← readU16s r4
      let (attribs, r6) ← readU16s r5
      let (szName, r7) ← readCString r6
      let (rest, r8) ← parseFiles n r7
      .ok ({ cbFile, uoffFolderStart, iFolder, date, time, attribs, szName } :: rest, r8)

/-- The `while self.f.br.off < len(...)` loop parsing `CFDATA` records
until the buffer is exhausted.  `off` is the absolute offset of `rem`
inside the cabinet buffer (the dictionary key `self.f.read_size()`), and
the result pairs the record list with the `data_off` association list.
The fuel argument only bounds the iteration count: every iteration
consumes at least 8 bytes, so any fuel above the remaining byte count
never runs out (parse passes `rem.length + 1`). -/
def parseDatasGo (Dres : Nat) : Nat → Nat → List Nat →
    Except PyErr (List CFDataRec × List (Nat × CFDataRec))
  | 0, _, _ => .error .structError
  | fuel + 1, off, rem =>
      if rem.isEmpty then .ok ([], [])
      else do
        let (csum, r1) ← readU32s rem
        let (cbData, r2) ← readU16s r1
        let (cbUncomp, r3) ← readU16s r2
        let (abReserve, r4) ← readNs Dres r3
        let (ab, _r5) ← readNs cbData r4
        let d : CFDataRec :=
          { csum, cbData, cbUncomp, abReserve, ab, raw := rem,
            size := 8 + Dres + cbData }
        let (ds, m) ← parseDatasGo Dres fuel (off + d.size) (rem.drop d.size)
        .ok (d :: ds, (off, d) :: m)

/-- Everything `CABFile.__init__` does after storing the 4 signature bytes:
fixed header fields, flag-gated optional fields, reserved area, folder
directory, file directory, data blocks.  `rem` is the buffer after the
signature (absolute offset 4); the signature itself is spliced into the
record by `CABFile.init`. -/
def CABFile.afterSig (rem0 : List Nat) : Except PyErr CABFile := do
  let (_, r1) ← readNs 4 rem0                -- 'xxxx'
  let (cbCabinet, r2) ← readU32s r1
  let (_, r3) ← readNs 4 r2                  -- 'xxxx'
  let (coffFiles, r4) ← readU32s r3
  let (_, r5) ← readNs 4 r4                  -- 'xxxx'
  let (vMinor, r6) ← readU8s r5
  let (vMajor, r7) ← readU8s r6
  let (cFolders, r8) ← readU16s r7
  let (cFiles, r9) ← readU16s r8
  let (flags, r10) ← readU16s r9
  let (setID, r11) ← readU16s r10
  let (iCabinet, r12) ← readU16s r11
  let (resFields, r13) ←
    if flags &&& 4 ≠ 0 then do
      let (cbCFHeader, ra) ← readU16s r12
      let (cbCFFolder, rb) ← readU8s ra
      let (cbCFData, rc) ← readU8s rb
      .ok ((some cbCFHeader, some cbCFFolder, some cbCFData), rc)
    else .ok ((none, none, none), r12)
  let (prevFields, r14) ←
    if flags &&& 1 ≠ 0 then do
      let (szCabinetPrev, ra) ← readCString r13
      let (szDiskPrev, rb) ← readCString ra
      .ok ((some szCabinetPrev, some szDiskPrev), rb)
    else .ok ((none, none), r13)
  let (nextFields, r15) ←
    if flags &&& 2 ≠ 0 then do
      let (szCabinetNext, ra) ← readCString r14
      let (szDiskNext, rb) ← readCString ra
      .ok ((some szCabinetNext, some szDiskNext), rb)
    else .ok ((none, none), r14)
  let Hres := resFields.1.getD 0
  let Fres := resFields.2.1.getD 0
  let Dres := resFields.2.2.getD 0
  let (abReserve, r16) ← readNs Hres r15
  let (folders, r17) ← parseFolders Fres cFolders r16
  let (files, r18) ← parseFiles cFiles r17
  -- absolute offset of r18 = initial length 4 + consumed since
  let off18 := 4 + (rem0.length - r18.length)
  let (datas, data_off) ← parseDatasGo Dres (r18.length + 1) off18 r18
  .ok { signature := [], cbCabinet, coffFiles, vMinor, vMajor, cFolders,
        cFiles, flags, setID, iCabinet,
        cbCFHeader := resFields.1, cbCFFolder := resFields.2.1,
        cbCFData := resFields.2.2,
        szCabinetPrev := prevFields.1, szDiskPrev := prevFields.2,
        szCabinetNext := nextFields.1, szDiskNext := nextFields.2,
        abReserve, folders, files, datas, data_off }

/-- `CABFile.__init__`: parse a cabinet buffer into its record set. -/
def CABFile.init (buf : List Nat) : Except PyErr CABFile := do
  let (signature, rem) ← readNs 4 buf
  let cab ← CABFile.afterSig rem
  .ok { cab with signature }

/-- Claim C3 counterexample: a 36-byte buffer whose first 4 bytes are
`XXXX` (not the `MSCF` marker) parses successfully — `CABFile.__init__`
never compares the signature, so no `MalformedHeader` error exists. -/
theorem c3_counterexample :
    (CABFile.init ([88, 88, 88, 88] ++ List.replicate 32 0)).isOk = true ∧
      [88, 88, 88, 88] ≠ [77, 83, 67, 70] := by
  refine ⟨?_, by decide⟩
  rfl

/-- Claim C3 (amended): `CABFile.__init__` does not validate the
signature.  The first 4 bytes are stored verbatim and the remainder of the
parse is completely independent of their value, so a buffer with a wrong
signature is parsed exactly like one with the correct marker instead of
failing. -/
theorem c3_signature_ignored (s r : List Nat) (hs : s.length = 4) :
    CABFile.init (s ++ r) =
      (CABFile.afterSig r).map (fun cab => { cab with signature := s }) := by
  have h1 : readNs 4 (s ++ r) = .ok (s, r) := by
    rw [readNs, ← hs]
    simp [List.take_left, List.drop_left]
  cases h : CABFile.afterSig r <;>
    simp [CABFile.init, h1, h, Except.map, bind, Except.bind]

/-- Claim C3 witness: the signature-independence theorem applied to the
concrete bad-signature buffer. -/
theorem c3_signature_ignored_witness :
    CABFile.init ([88, 88, 88, 88] ++ List.replicate 32 0) =
      (CABFile.afterSig (List.replicate 32 0)).map
        (fun cab => { cab with signature := [88, 88, 88, 88] }) :=
  c3_signature_ignored [88, 88, 88, 88] (List.replicate 32 0) rfl

/-! ### MSZIP decompression

`zlib.decompressobj(-15, zdict=d).decompress(c)` (raw headerless deflate
with preset dictionary `d`) is external-library code; it is modelled by an
abstract function `inflate : dict → data → Except PyErr bytes` that the
MSZIP-level definitions and theorems are parameterised over. -/

/-- The loop body of `decompress_mzip`: `i` is the enumeration index and
`outs` the `output_chunks` list built so far (`outs.length = i` at every
call).  Block 0 uses an empty dictionary, block `i > 0` uses
`output_chunks[i-1]`. -/
def mzipGo (inflate : List Nat → List Nat → Except PyErr (List Nat)) :
    List (List Nat) → Nat → List (List Nat) → Except PyErr (List (List Nat))
  | [], _, outs => .ok outs
  | c :: rest, i, outs => do
      let zdict := if i = 0 then ([] : List Nat) else outs.getD (i - 1) []
      let o ← inflate zdict c
      mzipGo inflate rest (i + 1) (outs ++ [o])

/-- `decompress_mzip(chunks)` from cab.py: strip the 2-byte `CK` marker
from every chunk, decompress each with the previous output as dictionary,
join the outputs. -/
def decompress_mzip (inflate : List Nat → List Nat → Except PyErr (List Nat))
    (chunks : List (List Nat)) : Except PyErr (List Nat) := do
  let stripped := chunks.map (fun x => x.drop 2)
  let outs ← mzipGo inflate stripped 0 []
  .ok outs.flatten

/-- Spec-side rendering of the MSZIP decompression contract (modelled from
the spec's words, for comparison with `decompress_mzip`): strip the 2-byte
marker of each block payload; decompress block 0 with an empty preset
dictionary and block `i > 0` with the fully decompressed output of block
`i-1` as dictionary; concatenate the per-block outputs in order. -/
def mzipChain (inflate : List Nat → List Nat → Except PyErr (List Nat)) :
    List Nat → List (List Nat) → Except PyErr (List Nat)
  | _, [] => .ok []
  | zdict, c :: rest => do
      let o ← inflate zdict (c.drop 2)
      let r ← mzipChain inflate o rest
      .ok (o ++ r)

/-- Helper: the chained per-block outputs (before joining), threading each
block's decompressed output as the next block's dictionary.  Takes
already-stripped block payloads. -/
def chainOuts (inflate : List Nat → List Nat → Except PyErr (List Nat)) :
    List Nat → List (List Nat) → Except PyErr (List (List Nat))
  | _, [] => .ok []
  | zdict, c :: rest => do
      let o ← inflate zdict c
      let rs ← chainOuts inflate o rest
      .ok (o :: rs)

theorem mzipChain_eq_chainOuts
    (inflate : List Nat → List Nat → Except PyErr (List Nat)) :
    ∀ (chunks : List (List Nat)) (zdict : List Nat),
    mzipChain inflate zdict chunks =
      (chainOuts inflate zdict (chunks.map (fun x => x.drop 2))).map List.flatten
  | [], _ => rfl
  | c :: rest, zdict => by
      simp only [mzipChain, chainOuts, List.map_cons]
      cases h : inflate zdict (c.drop 2) with
      | error e => simp [h, Except.map, bind, Except.bind]
      | ok o =>
          simp only [h, bind, Except.bind]
          rw [mzipChain_eq_chainOuts inflate rest o]
          cases h2 : chainOuts inflate o (rest.map (fun x => x.drop 2)) <;>
            simp [h2, Except.map, bind, Except.bind, pure, Except.pure]

theorem mzipGo_eq_chainOuts
    (inflate : List Nat → List Nat → Except PyErr (List Nat)) :
    ∀ (cs : List (List Nat)) (outs : List (List Nat)), outs ≠ [] →
    mzipGo inflate cs outs.length outs =
      (chainOuts inflate (outs.getD (outs.length - 1) []) cs).map
        (fun rs => outs ++ rs)
  | [], outs, _ => by
      simp [mzipGo, chainOuts, Except.map]
  | c :: rest, outs, hne => by
      simp only [mzipGo, chainOuts]
      have hlen : outs.length ≠ 0 := by
        cases outs with
        | nil => exact absurd rfl hne
        | cons a t => simp
      simp only [if_neg hlen]
      cases h : inflate (outs.getD (outs.length - 1) []) c with
      | error e => simp [h, Except.map, bind, Except.bind]
      | ok o =>
          simp only [h, bind, Except.bind]
          have hlen2 : (outs ++ [o]).length = outs.length + 1 := by simp
          have hgd : (outs ++ [o]).getD (outs.length + 1 - 1) [] = o := by
            rw [Nat.add_sub_cancel, List.getD_append_right _ _ _ _ (Nat.le_refl _),
              Nat.sub_self]
            rfl
          have := mzipGo_eq_chainOuts inflate rest (outs ++ [o]) (by simp)
          rw [hlen2] at this
          rw [this, hgd]
          cases h2 : chainOuts inflate o rest <;>
            simp [h2, Except.map, bind, Except.bind, pure, Except.pure]

/-- Claim C6: `decompress_mzip` strips the 2-byte marker from every block
payload, decompresses block 0 with an empty preset dictionary and every
block `i > 0` with the fully decompressed output of block `i-1` as
dictionary, and returns the concatenation of the per-block outputs in
order — i.e. it coincides with the spec-side chained decompressor
`mzipChain` for every abstract deflate decoder. -/
theorem c6_decompress_mzip_chains
    (inflate : List Nat → List Nat → Except PyErr (List Nat))
    (chunks : List (List Nat)) :
    decompress_mzip inflate chunks = mzipChain inflate [] chunks := by
  cases chunks with
  | nil => rfl
  | cons c rest =>
      rw [mzipChain_eq_chainOuts]
      simp only [decompress_mzip, List.map_cons, mzipGo, chainOuts, bind,
        Except.bind, if_pos rfl, reduceIte, List.nil_append]
      cases h : inflate [] (c.drop 2) with
      | error e => simp [h, Except.map]
      | ok o =>
          simp only [h]
          have := mzipGo_eq_chainOuts inflate (rest.map (fun x => x.drop 2))
            [o] (by simp)
          simp only [List.length_cons, List.length_nil, Nat.zero_add,
            Nat.add_sub_cancel, List.getD_cons_zero] at this
          rw [this]
          cases h2 : chainOuts inflate o (rest.map (fun x => x.drop 2)) <;>
            simp [h2, Except.map, bind, Except.bind, pure, Except.pure]

/-- The per-folder `CFDATA` walk in `get_folder_files`: starting at the
folder's `coffCabStart`, look each block up in `data_off` by absolute
offset (`KeyError` on a miss), recompute the checksum over
`cdata.br.buf[4:cdata.read_size()]` and assert it equals the stored
`csum`, collect the payloads and advance by `read_size()`. -/
def walkBlocks (m : List (Nat × CFDataRec)) : Nat → Nat → Except PyErr (List (List Nat))
  | _, 0 => .ok []
  | off, n + 1 =>
      match m.lookup off with
      | none => .error .keyError
      | some cdata =>
          let csum := checksum ((cdata.raw.drop 4).take (cdata.size - 4)) 0
          if csum = cdata.csum then do
            let rest ← walkBlocks m (off + cdata.size) n
            .ok (cdata.ab :: rest)
          else .error .assertionError

/-- The same walk, returning the visited records and skipping the checksum
assertion (used to state which blocks a reconstruction visits). -/
def walkRecs (m : List (Nat × CFDataRec)) : Nat → Nat → Except PyErr (List CFDataRec)
  | _, 0 => .ok []
  | off, n + 1 =>
      match m.lookup off with
      | none => .error .keyError
      | some cdata => do
          let rest ← walkRecs m (off + cdata.size) n
          .ok (cdata :: rest)

/-- The compression dispatch in `get_folder_files`: type 0 (none) joins the
chunks, type 1 (MSZIP) runs `decompress_mzip`, anything else hits
`assert(False and "unsupported type")`. -/
def decodeFolderData (inflate : List Nat → List Nat → Except PyErr (List Nat))
    (typeCompress : Nat) (chunks : List (List Nat)) : Except PyErr (List Nat) :=
  if typeCompress = 0 then .ok chunks.flatten
  else if typeCompress = 1 then decompress_mzip inflate chunks
  else .error .assertionError

/-- `CABFile.get_folder_files(index)`: walk the folder's data blocks,
decompress if needed, then slice `[uoffFolderStart, uoffFolderStart +
cbFile)` out of the folder stream for every file whose `iFolder` matches
`index`. -/
def CABFile.get_folder_files
    (inflate : List Nat → List Nat → Except PyErr (List Nat))
    (cab : CABFile) (index : Nat) :
    Except PyErr (List (List Nat × List Nat)) :=
  match cab.folders.get? index with
  | none => .error .indexError
  | some folder => do
      let chunks ← walkBlocks cab.data_off folder.coffCabStart folder.cCFData
      let folder_data ← decodeFolderData inflate folder.typeCompress chunks
      pure (cab.files.filterMap (fun fi =>
        if fi.iFolder = index then
          some (fi.szName, (folder_data.drop fi.uoffFolderStart).take fi.cbFile)
        else none))

/-- The dictionary-ignoring identity codec, used to instantiate the
abstract deflate decoder on concrete inputs. -/
def idInflate : List Nat → List Nat → Except PyErr (List Nat) :=
  fun _ data => .ok data

/-- A concrete parsed cabinet whose only folder announces compression type
2 (Quantum) and owns no data block. -/
def cabQuantum : CABFile :=
  { signature := [77, 83, 67, 70], cbCabinet := 44, coffFiles := 44,
    vMinor := 3, vMajor := 1, cFolders := 1, cFiles := 0, flags := 0,
    setID := 42, iCabinet := 0, cbCFHeader := none, cbCFFolder := none,
    cbCFData := none, szCabinetPrev := none, szDiskPrev := none,
    szCabinetNext := none, szDiskNext := none, abReserve := [],
    folders := [{ coffCabStart := 44, cCFData := 0, typeCompress := 2,
                  abReserve := [] }],
    files := [], datas := [], data_off := [] }

/-- A data block whose stored checksum (999) disagrees with the checksum
recomputed over its post-checksum bytes. -/
def badCsumBlock : CFDataRec :=
  { csum := 999, cbData := 1, cbUncomp := 1, abReserve := [], ab := [5],
    raw := [0, 0, 0, 0, 1, 0, 1, 0, 5], size := 9 }

/-- A concrete parsed cabinet whose only folder owns exactly the one data
block with the wrong stored checksum. -/
def cabBadCsum : CABFile :=
  { cabQuantum with
    folders := [{ coffCabStart := 0, cCFData := 1, typeCompress := 0,
                  abReserve := [] }],
    datas := [badCsumBlock], data_off := [(0, badCsumBlock)] }

/-- Claim C4 counterexample: an unsupported compression type (2, Quantum)
and a checksum mismatch both surface as the very same bare
`AssertionError` — the "unsupported compression" failure is NOT a distinct
error kind distinguishable from a checksum mismatch. -/
theorem c4_counterexample :
    CABFile.get_folder_files idInflate cabQuantum 0 = .error .assertionError ∧
    CABFile.get_folder_files idInflate cabBadCsum 0 = .error .assertionError :=
  ⟨rfl, rfl⟩

/-- Claim C4 (amended): a folder whose compression-type code is neither 0
(none) nor 1 (MSZIP) never yields file bytes: `get_folder_files` always
fails, and whenever the block walk itself succeeds the failure is the
`assert False` `AssertionError` — the same (indistinct) exception type a
checksum mismatch raises, not a dedicated UnsupportedCompression error. -/
theorem c4_unsupported_compression_fails
    (inflate : List Nat → List Nat → Except PyErr (List Nat))
    (cab : CABFile) (index : Nat) (folder : CFFolderRec)
    (hf : cab.folders.get? index = some folder)
    (h0 : folder.typeCompress ≠ 0) (h1 : folder.typeCompress ≠ 1) :
    (∀ fs, CABFile.get_folder_files inflate cab index ≠ .ok fs) ∧
    (∀ chunks,
      walkBlocks cab.data_off folder.coffCabStart folder.cCFData = .ok chunks →
      CABFile.get_folder_files inflate cab index = .error .assertionError) := by
  constructor
  · intro fs
    simp only [CABFile.get_folder_files, hf]
    cases hw : walkBlocks cab.data_off folder.coffCabStart folder.cCFData with
    | error e => simp [bind, Except.bind]
    | ok chunks =>
        simp [bind, Except.bind, decodeFolderData, if_neg h0, if_neg h1]
  · intro chunks hw
    simp only [CABFile.get_folder_files, hf, hw]
    simp [bind, Except.bind, decodeFolderData, if_neg h0, if_neg h1]

/-- Claim C4 witness: the amended theorem applied to the concrete Quantum
cabinet (whose block walk trivially succeeds with no blocks). -/
theorem c4_unsupported_compression_fails_witness :
    CABFile.get_folder_files idInflate cabQuantum 0 ≠ .ok [] ∧
    CABFile.get_folder_files idInflate cabQuantum 0 = .error .assertionError := by
  have h := c4_unsupported_compression_fails idInflate cabQuantum 0
    { coffCabStart := 44, cCFData := 0, typeCompress := 2, abReserve := [] }
    rfl (by decide) (by decide)
  exact ⟨h.1 [], h.2 [] rfl⟩

theorem length_filterMap_slices (files : List CFFileRec) (index : Nat)
    (fd : List Nat) :
    (files.filterMap (fun fi =>
      if fi.iFolder = index then
        some (fi.szName, (fd.drop fi.uoffFolderStart).take fi.cbFile)
      else none)).length =
      files.countP (fun g => decide (g.iFolder = index)) := by
  induction files with
  | nil => rfl
  | cons f rest ih =>
      by_cases h : f.iFolder = index
      · simp [List.filterMap_cons, List.countP_cons, h, ih]
      · simp [List.filterMap_cons, List.countP_cons, h, ih]

/-- A concrete parsed cabinet with one folder (index 0, no data blocks)
and one file entry whose `iFolder` (5) exceeds the folder count (1). -/
def cabDangling : CABFile :=
  { cabQuantum with
    folders := [{ coffCabStart := 0, cCFData := 0, typeCompress := 0,
                  abReserve := [] }],
    files := [{ cbFile := 3, uoffFolderStart := 0, iFolder := 5, date := 0,
                time := 0, attribs := 0, szName := [97] }] }

/-- Claim C5 counterexample: on a cabinet containing a file entry whose
`iFolder` (5) has no corresponding folder (there is only folder 0),
`get_folder_files(0)` succeeds with an empty result — the dangling file is
silently omitted; no InvalidFolderReference (or any other) error exists. -/
theorem c5_counterexample :
    CABFile.get_folder_files idInflate cabDangling 0 = .ok [] ∧
    (∀ fi ∈ cabDangling.files, cabDangling.folders.length ≤ fi.iFolder) := by
  exact ⟨rfl, by decide⟩

/-- Claim C5 (amended): a file entry whose folder index is out of range is
silently dropped: whenever `get_folder_files` succeeds on some folder
`index`, the dangling file's `iFolder` is necessarily different from
`index`, and the result has exactly one entry per file whose `iFolder`
equals `index` — so the dangling file contributes to no folder's
reconstruction and raises no error. -/
theorem c5_out_of_range_folder_ref_ignored
    (inflate : List Nat → List Nat → Except PyErr (List Nat))
    (cab : CABFile) (index : Nat) (fs : List (List Nat × List Nat))
    (fi : CFFileRec)
    (hok : CABFile.get_folder_files inflate cab index = .ok fs)
    (hfi : fi ∈ cab.files)
    (hbad : cab.folders.length ≤ fi.iFolder) :
    fi.iFolder ≠ index ∧
    fs.length = cab.files.countP (fun g => decide (g.iFolder = index)) := by
  rcases hfold : cab.folders.get? index with _ | folder
  · rw [CABFile.get_folder_files, hfold] at hok
    exact absurd hok (by simp)
  · have hidx : index < cab.folders.length := by
      by_contra hge
      rw [List.get?_eq_none.2 (Nat.le_of_not_lt hge)] at hfold
      exact Option.noConfusion hfold
    refine ⟨by omega, ?_⟩
    simp only [CABFile.get_folder_files, hfold] at hok
    rcases hw : walkBlocks cab.data_off folder.coffCabStart folder.cCFData with e | chunks
    · rw [hw] at hok
      exact absurd hok (by simp [bind, Except.bind])
    · rw [hw] at hok
      simp only [bind, Except.bind] at hok
      rcases hd : decodeFolderData inflate folder.typeCompress chunks with e | fd
      · rw [hd] at hok
        exact absurd hok (by simp)
      · rw [hd] at hok
        simp only [pure, Except.pure, Except.ok.injEq] at hok
        subst hok
        exact length_filterMap_slices cab.files index fd

/-- Claim C5 witness: the amended theorem applied to the concrete cabinet
with the dangling file entry. -/
theorem c5_out_of_range_folder_ref_ignored_witness :
    (5 : Nat) ≠ 0 ∧
    ([] : List (List Nat × List Nat)).length =
      cabDangling.files.countP (fun g => decide (g.iFolder = 0)) := by
  have h := c5_out_of_range_folder_ref_ignored idInflate cabDangling 0 []
    { cbFile := 3, uoffFolderStart := 0, iFolder := 5, date := 0,
      time := 0, attribs := 0, szName := [97] }
    rfl (by decide) (by decide)
  exact h

theorem walkBlocks_error_of_bad_csum
    (m : List (Nat × CFDataRec)) :
    ∀ (n off : Nat) (recs : List CFDataRec),
    walkRecs m off n = .ok recs →
    (∃ r ∈ recs, checksum ((r.raw.drop 4).take (r.size - 4)) 0 ≠ r.csum) →
    walkBlocks m off n = .error .assertionError
  | 0, off, recs, hw, hbad => by
      simp only [walkRecs, Except.ok.injEq] at hw
      subst hw
      simp at hbad
  | n + 1, off, recs, hw, hbad => by
      simp only [walkRecs] at hw
      rcases hl : m.lookup off with _ | d
      · rw [hl] at hw
        exact absurd hw (by simp)
      · rw [hl] at hw
        simp only [bind, Except.bind] at hw
        rcases hrest : walkRecs m (off + d.size) n with e | rest
        · rw [hrest] at hw
          exact absurd hw (by simp)
        · rw [hrest] at hw
          simp only [pure, Except.pure, Except.ok.injEq] at hw
          subst hw
          simp only [walkBlocks, hl]
          by_cases hcs : checksum ((d.raw.drop 4).take (d.size - 4)) 0 = d.csum
          · rw [if_pos hcs]
            obtain ⟨r, hr, hrbad⟩ := hbad
            rcases List.mem_cons.1 hr with rfl | hr2
            · exact absurd hcs hrbad
            · rw [walkBlocks_error_of_bad_csum m n (off + d.size) rest hrest
                ⟨r, hr2, hrbad⟩]
              rfl
          · rw [if_neg hcs]

/-- Claim C7: reconstruction recomputes every visited data block's checksum
over the block's bytes from just after the 4-byte checksum field through
its payload; if any visited block's recomputed value differs from the
stored `csum`, `get_folder_files` fails (with the assertion error) and
returns no file data. -/
theorem c7_checksum_mismatch_fails
    (inflate : List Nat → List Nat → Except PyErr (List Nat))
    (cab : CABFile) (index : Nat) (folder : CFFolderRec)
    (recs : List CFDataRec) (r : CFDataRec)
    (hf : cab.folders.get? index = some folder)
    (hw : walkRecs cab.data_off folder.coffCabStart folder.cCFData = .ok recs)
    (hr : r ∈ recs)
    (hbad : checksum ((r.raw.drop 4).take (r.size - 4)) 0 ≠ r.csum) :
    CABFile.get_folder_files inflate cab index = .error .assertionError := by
  simp only [CABFile.get_folder_files, hf]
  rw [walkBlocks_error_of_bad_csum cab.data_off folder.cCFData
    folder.coffCabStart recs hw ⟨r, hr, hbad⟩]
  rfl

/-- Claim C7 witness: the concrete cabinet whose single data block stores
checksum 999 while the recomputed value differs; reconstruction fails. -/
theorem c7_checksum_mismatch_fails_witness :
    CABFile.get_folder_files idInflate cabBadCsum 0 = .error .assertionError :=
  c7_checksum_mismatch_fails idInflate cabBadCsum 0
    { coffCabStart := 0, cCFData := 1, typeCompress := 0, abReserve := [] }
    [badCsumBlock] badCsumBlock rfl rfl (by decide) (by decide)

/-- Claim C10: when the block walk and decompression of a folder succeed, a
file entry whose `uoffFolderStart + cbFile` exceeds the reconstructed
stream length raises no error: `get_folder_files` returns `ok`, the file's
returned bytes are the in-range slice `fd[uoff : uoff+cb]` of the stream
(possibly empty), whose length is `min cbFile (fd.length - uoff)` and in
particular at most `cbFile`. -/
theorem c10_overlong_file_slice_truncated
    (inflate : List Nat → List Nat → Except PyErr (List Nat))
    (cab : CABFile) (index : Nat) (folder : CFFolderRec)
    (chunks : List (List Nat)) (fd : List Nat) (fi : CFFileRec)
    (hf : cab.folders.get? index = some folder)
    (hw : walkBlocks cab.data_off folder.coffCabStart folder.cCFData = .ok chunks)
    (hd : decodeFolderData inflate folder.typeCompress chunks = .ok fd)
    (hfi : fi ∈ cab.files) (hif : fi.iFolder = index)
    (hover : fd.length < fi.uoffFolderStart + fi.cbFile) :
    CABFile.get_folder_files inflate cab index =
      .ok (cab.files.filterMap (fun g =>
        if g.iFolder = index then
          some (g.szName, (fd.drop g.uoffFolderStart).take g.cbFile)
        else none)) ∧
    (fi.szName, (fd.drop fi.uoffFolderStart).take fi.cbFile) ∈
      cab.files.filterMap (fun g =>
        if g.iFolder = index then
          some (g.szName, (fd.drop g.uoffFolderStart).take g.cbFile)
        else none) ∧
    ((fd.drop fi.uoffFolderStart).take fi.cbFile).length =
      min fi.cbFile (fd.length - fi.uoffFolderStart) ∧
    ((fd.drop fi.uoffFolderStart).take fi.cbFile).length ≤ fi.cbFile := by
  refine ⟨?_, ?_, ?_, ?_⟩
  · simp only [CABFile.get_folder_files, hf, hw, bind, Except.bind, hd, pure,
      Except.pure]
  · exact List.mem_filterMap.2 ⟨fi, hfi, by rw [if_pos hif]⟩
  · simp [List.length_take, List.length_drop]
  · simp [List.length_take]

/-- A concrete parsed cabinet: one folder with no data blocks (so its
reconstructed stream is empty) and one file claiming 5 bytes at offset 0
of that stream. -/
def cabOverlong : CABFile :=
  { cabQuantum with
    folders := [{ coffCabStart := 0, cCFData := 0, typeCompress := 0,
                  abReserve := [] }],
    files := [{ cbFile := 5, uoffFolderStart := 0, iFolder := 0, date := 0,
                time := 0, attribs := 0, szName := [97] }] }

/-- Claim C10 witness: on the concrete cabinet the overlong file entry
reconstructs without error to the empty (truncated) byte list. -/
theorem c10_overlong_file_slice_truncated_witness :
    CABFile.get_folder_files idInflate cabOverlong 0 =
      .ok (cabOverlong.files.filterMap (fun g =>
        if g.iFolder = 0 then
          some (g.szName, (([] : List Nat).drop g.uoffFolderStart).take g.cbFile)
        else none)) ∧
    (([97] : List Nat), (([] : List Nat).drop 0).take 5) ∈
      cabOverlong.files.filterMap (fun g =>
        if g.iFolder = 0 then
          some (g.szName, (([] : List Nat).drop g.uoffFolderStart).take g.cbFile)
        else none) ∧
    ((([] : List Nat).drop 0).take 5).length = min 5 (([] : List Nat).length - 0) ∧
    ((([] : List Nat).drop 0).take 5).length ≤ 5 :=
  c10_overlong_file_slice_truncated idInflate cabOverlong 0
    { coffCabStart := 0, cCFData := 0, typeCompress := 0, abReserve := [] }
    [] []
    { cbFile := 5, uoffFolderStart := 0, iFolder := 0, date := 0, time := 0,
      attribs := 0, szName := [97] }
    rfl rfl rfl (by decide) rfl (by decide)

/-! ### Binary writing primitives

`BinWriter.write` is `struct.pack` + append: pack checks each value's
range (`struct.error` otherwise) and yields little-endian bytes.
`BinWriter.write_at` is `struct.pack_into`: same range check plus a bounds
check against the existing buffer.  `BinWriter.append` of a Python
`bytes`/`bytearray` is plain concatenation; extending with out-of-range
ints raises `ValueError`, modelled by `checkBytes`. -/

def encU16 (v : Nat) : List Nat := [v % 256, v / 256 % 256]

def encU32 (v : Nat) : List Nat :=
  [v % 256, v / 256 % 256, v / 65536 % 256, v / 16777216 % 256]

def writeU16 (v : Nat) : Except PyErr (List Nat) :=
  if v < 65536 then .ok (encU16 v) else .error .structError

def writeU32 (v : Nat) : Except PyErr (List Nat) :=
  if v < 4294967296 then .ok (encU32 v) else .error .structError

def checkBytes (l : List Nat) : Except PyErr (List Nat) :=
  if l.all (· < 256) then .ok l else .error .valueError

/-- `BinWriter.write_at(off, ...)`: overwrite `p.length` bytes at `off`. -/
def patchAt (buf : List Nat) (off : Nat) (p : List Nat) :
    Except PyErr (List Nat) :=
  if off + p.length ≤ buf.length then
    .ok (buf.take off ++ p ++ buf.drop (off + p.length))
  else .error .structError

/-! ### The writer

`zlib.compressobj(wbits=-15)` is external-library code; the single
streaming compressor carried across chunks is modelled by an abstract
function `deflate history chunk isLast` returning the bytes that
`z.compress(chunk) + z.flush(...)` emits when the compressor has already
consumed `history` (`isLast` selects `Z_FINISH` over `Z_FULL_FLUSH`). -/

/-- The `while start_off < data_size` loop of `make_cdatas`.  Each pass
takes a chunk of at most 32768 bytes, wraps it into a `CFDATA` block
`csum(4) | len(c)(2) | len(chunk)(2) | c`, checksums the block minus its
own 4-byte checksum field, and backpatches the checksum.  The fuel only
bounds the iteration count; every pass consumes at least one byte, so the
`data.length + 1` supplied by `make_cdatas` never runs out. -/
def make_cdatas_go (deflate : List Nat → List Nat → Bool → List Nat)
    (compress : Bool) (data : List Nat) :
    Nat → Nat → Except PyErr (List (List Nat))
  | 0, _ => .error .structError
  | fuel + 1, start_off =>
      if start_off < data.length then do
        let remaining := data.length - start_off
        let chunk_size := min 32768 remaining
        let chunk := (data.drop start_off).take chunk_size
        let c :=
          if compress then
            [67, 75] ++ deflate (data.take start_off) chunk (chunk_size == remaining)
          else chunk
        let lens ← writeU16 c.length
        let lenu ← writeU16 chunk.length
        let cOk ← checkBytes c
        let body := lens ++ lenu ++ cOk
        let head ← writeU32 (checksum body 0)
        let rest ← make_cdatas_go deflate compress data fuel (start_off + chunk_size)
        .ok ((head ++ body) :: rest)
      else .ok []

/-- `make_cdatas(data, compress)` from cab.py. -/
def make_cdatas (deflate : List Nat → List Nat → Bool → List Nat)
    (data : List Nat) (compress : Bool) : Except PyErr (List (List Nat)) :=
  make_cdatas_go deflate compress data (data.length + 1) 0

/-- Pure description of the blocks `make_cdatas` builds, as
`(checksum, uncompressed-length, payload)` tuples. -/
def cdataTuplesGo (deflate : List Nat → List Nat → Bool → List Nat)
    (compress : Bool) (data : List Nat) :
    Nat → Nat → List (Nat × Nat × List Nat)
  | 0, _ => []
  | fuel + 1, start_off =>
      if start_off < data.length then
        let remaining := data.length - start_off
        let chunk_size := min 32768 remaining
        let chunk := (data.drop start_off).take chunk_size
        let c :=
          if compress then
            [67, 75] ++ deflate (data.take start_off) chunk (chunk_size == remaining)
          else chunk
        (checksum (encU16 c.length ++ encU16 chunk.length ++ c) 0, chunk.length, c)
          :: cdataTuplesGo deflate compress data fuel (start_off + chunk_size)
      else []

def cdataTuples (deflate : List Nat → List Nat → Bool → List Nat)
    (compress : Bool) (data : List Nat) : List (Nat × Nat × List Nat) :=
  cdataTuplesGo deflate compress data (data.length + 1) 0

/-- The on-disk bytes of one `CFDATA` block described by a tuple. -/
def blockBytesP (t : Nat × Nat × List Nat) : List Nat :=
  encU32 t.1 ++ encU16 t.2.2.length ++ encU16 t.2.1 ++ t.2.2

/-- The ordered MSZIP block payloads (`CK` marker included) that
`make_cdatas` wraps for a given folder stream under compression. -/
def mzipPayloads (deflate : List Nat → List Nat → Bool → List Nat)
    (data : List Nat) : List (List Nat) :=
  (cdataTuples deflate true data).map (fun t => t.2.2)

/-- The per-file `(fsize, foff, name)` metadata loop of `make_cab` (the
`f['fsize']/f['foff']/f['name']` lists, as one list of triples). -/
def fileMeta : Nat → List (List Nat × List Nat) → List (Nat × Nat × List Nat)
  | _, [] => []
  | o, (fn, d) :: rest => (d.length, o, fn) :: fileMeta (o + d.length) rest

/-- The folder's logical stream: its files' bytes joined in order. -/
def folderData (fol : List (List Nat × List Nat)) : List Nat :=
  (fol.map Prod.snd).flatten

/-- Per-folder writer state: the built data blocks, the buffer offset of
the `coffCabStart` placeholder, and the per-file metadata. -/
structure WFolder where
  cdata : List (List Nat)
  cOff : Nat
  files : List (Nat × Nat × List Nat)
deriving DecidableEq, Repr

/-- The "write all CFFOLDER" loop of `make_cab`. -/
def writeFolderDir (deflate : List Nat → List Nat → Bool → List Nat)
    (compress : Bool) :
    List (List (List Nat × List Nat)) → List Nat →
    Except PyErr (List Nat × List WFolder)
  | [], buf => .ok (buf, [])
  | fol :: rest, buf => do
      let cdata ← make_cdatas deflate (folderData fol) compress
      let cOff := buf.length
      let e1 ← writeU16 cdata.length
      let e2 ← writeU16 (if compress then 1 else 0)
      let (buf3, ws) ← writeFolderDir deflate compress rest
        (buf ++ encU32 0 ++ e1 ++ e2)
      .ok (buf3, { cdata, cOff, files := fileMeta 0 fol } :: ws)

/-- One folder's slice of the "write all CFFILE" loop. -/
def writeFileEntries (i : Nat) :
    List (Nat × Nat × List Nat) → List Nat → Except PyErr (List Nat)
  | [], buf => .ok buf
  | (fsize, foff, name) :: rest, buf => do
      let b1 ← writeU32 fsize
      let b2 ← writeU32 foff
      let b3 ← writeU16 i
      let nm ← checkBytes name
      writeFileEntries i rest
        (buf ++ b1 ++ b2 ++ b3 ++ encU16 0 ++ encU16 0 ++ encU16 0 ++ nm ++ [0])

/-- The "write all CFFILE" loop of `make_cab`. -/
def writeFileDir : Nat → List WFolder → List Nat → Except PyErr (List Nat)
  | _, [], buf => .ok buf
  | i, w :: rest, buf => do
      let buf2 ← writeFileEntries i w.files buf
      writeFileDir (i + 1) rest buf2

/-- The "write all CDATA" loop of `make_cab`: backpatch each folder's
`coffCabStart` with the current end offset, then append its blocks. -/
def writeDataSec : List WFolder → List Nat → Except PyErr (List Nat)
  | [], buf => .ok buf
  | w :: rest, buf => do
      let v ← writeU32 buf.length
      let buf2 ← patchAt buf w.cOff v
      writeDataSec rest (buf2 ++ w.cdata.flatten)

/-- `make_cab(layout, compress)` from cab.py: header with zeroed
size/offset fields, folder directory (placeholder `coffCabStart`),
backpatch of `coffFiles` (offset 16), file directory, data section with
per-folder `coffCabStart` backpatches, final backpatch of `cbCabinet`
(offset 8). -/
def make_cab (deflate : List Nat → List Nat → Bool → List Nat)
    (layout : List (List (List Nat × List Nat))) (compress : Bool) :
    Except PyErr (List Nat) := do
  let cf ← writeU16 layout.length
  let cfi ← writeU16 (layout.map List.length).sum
  let hdr := [77, 83, 67, 70] ++ encU32 0 ++ encU32 0 ++ encU32 0 ++
    encU32 0 ++ encU32 0 ++ [3, 1] ++ cf ++ cfi ++ encU16 0 ++ encU16 42 ++
    encU16 0
  let (buf2, ws) ← writeFolderDir deflate compress layout hdr
  let pv ← writeU32 buf2.length
  let buf3 ← patchAt buf2 16 pv
  let buf4 ← writeFileDir 0 ws buf3
  let buf5 ← writeDataSec ws buf4
  let tv ← writeU32 buf5.length
  patchAt buf5 8 tv

/-- The dictionary-and-history-ignoring identity compressor, instantiating
the abstract streaming deflate on concrete inputs. -/
def idDeflate : List Nat → List Nat → Bool → List Nat :=
  fun _history chunk _isLast => chunk

theorem writeU16_ok {v : Nat} {l : List Nat} (h : writeU16 v = .ok l) :
    v < 65536 ∧ l = encU16 v := by
  by_cases hv : v < 65536
  · rw [writeU16, if_pos hv] at h
    exact ⟨hv, (Except.ok.injEq _ _ ▸ h).symm⟩
  · rw [writeU16, if_neg hv] at h
    exact absurd h (by simp)

theorem writeU32_ok {v : Nat} {l : List Nat} (h : writeU32 v = .ok l) :
    v < 4294967296 ∧ l = encU32 v := by
  by_cases hv : v < 4294967296
  · rw [writeU32, if_pos hv] at h
    exact ⟨hv, (Except.ok.injEq _ _ ▸ h).symm⟩
  · rw [writeU32, if_neg hv] at h
    exact absurd h (by simp)

theorem checkBytes_ok {l l' : List Nat} (h : checkBytes l = .ok l') :
    l' = l ∧ ∀ b ∈ l, b < 256 := by
  by_cases hv : l.all (· < 256)
  · rw [checkBytes, if_pos hv] at h
    refine ⟨(Except.ok.injEq _ _ ▸ h).symm, ?_⟩
    intro b hb
    simpa using List.all_eq_true.1 hv b hb
  · rw [checkBytes, if_neg hv] at h
    exact absurd h (by simp)

theorem patchAt_ok {buf : List Nat} {off : Nat} {p buf' : List Nat}
    (h : patchAt buf off p = .ok buf') :
    off + p.length ≤ buf.length ∧
    buf' = buf.take off ++ p ++ buf.drop (off + p.length) := by
  by_cases hv : off + p.length ≤ buf.length
  · rw [patchAt, if_pos hv] at h
    exact ⟨hv, (Except.ok.injEq _ _ ▸ h).symm⟩
  · rw [patchAt, if_neg hv] at h
    exact absurd h (by simp)

/-- Inversion for the `make_cdatas` loop: a successful run returns exactly
the blocks described by `cdataTuplesGo`, and every block satisfies the
range checks the writer performed. -/
theorem make_cdatas_go_inv (deflate : List Nat → List Nat → Bool → List Nat)
    (compress : Bool) (data : List Nat) :
    ∀ (fuel off : Nat) (res : List (List Nat)),
    data.length - off < fuel →
    make_cdatas_go deflate compress data fuel off = .ok res →
    res = (cdataTuplesGo deflate compress data fuel off).map blockBytesP ∧
    ∀ t ∈ cdataTuplesGo deflate compress data fuel off,
      t.1 < 4294967296 ∧ t.2.1 < 65536 ∧ t.2.2.length < 65536 ∧
        ∀ b ∈ t.2.2, b < 256
  | 0, off, res, hfuel, _ => absurd hfuel (by omega)
  | fuel + 1, off, res, hfuel, hok => by
      by_cases hoff : off < data.length
      · rw [make_cdatas_go, if_pos hoff] at hok
        simp only [bind, Except.bind] at hok
        rcases h1 : writeU16 (if compress then
            [67, 75] ++ deflate (data.take off)
              ((data.drop off).take (min 32768 (data.length - off)))
              (min 32768 (data.length - off) == data.length - off)
          else (data.drop off).take (min 32768 (data.length - off))).length
          with e | lens
        · rw [h1] at hok; exact absurd hok (by simp)
        rw [h1] at hok
        rcases h2 : writeU16 ((data.drop off).take
            (min 32768 (data.length - off))).length with e | lenu
        · rw [h2] at hok; exact absurd hok (by simp)
        rw [h2] at hok
        rcases h3 : checkBytes (if compress then
            [67, 75] ++ deflate (data.take off)
              ((data.drop off).take (min 32768 (data.length - off)))
              (min 32768 (data.length - off) == data.length - off)
          else (data.drop off).take (min 32768 (data.length - off)))
          with e | cOk
        · rw [h3] at hok; exact absurd hok (by simp)
        rw [h3] at hok
        simp only [] at hok
        rcases h4 : writeU32 (checksum (lens ++ lenu ++ cOk) 0) with e | head
        · rw [h4] at hok; exact absurd hok (by simp)
        rw [h4] at hok
        rcases h5 : make_cdatas_go deflate compress data fuel
            (off + min 32768 (data.length - off)) with e | rest
        · rw [h5] at hok; exact absurd hok (by simp)
        rw [h5] at hok
        simp only [pure, Except.pure, Except.ok.injEq] at hok
        subst hok
        obtain ⟨hc16, rfl⟩ := writeU16_ok h1
        obtain ⟨hu16, rfl⟩ := writeU16_ok h2
        obtain ⟨rfl, hbytes⟩ := checkBytes_ok h3
        obtain ⟨hcs32, rfl⟩ := writeU32_ok h4
        have hstep : min 32768 (data.length - off) ≥ 1 := by omega
        have ih := make_cdatas_go_inv deflate compress data fuel
          (off + min 32768 (data.length - off)) rest (by omega) h5
        rw [cdataTuplesGo, if_pos hoff]
        simp only [List.map_cons]
        constructor
        · rw [ih.1]
          rfl
        · intro t ht
          rcases List.mem_cons.1 ht with rfl | ht2
          · exact ⟨hcs32, hu16, hc16, hbytes⟩
          · exact ih.2 t ht2
      · rw [make_cdatas_go, if_neg hoff] at hok
        simp only [Except.ok.injEq] at hok
        subst hok
        rw [cdataTuplesGo, if_neg hoff]
        exact ⟨rfl, by simp⟩

theorem cdataTuplesGo_length (deflate : List Nat → List Nat → Bool → List Nat)
    (compress : Bool) (data : List Nat) :
    ∀ (fuel off : Nat), data.length - off < fuel →
    (cdataTuplesGo deflate compress data fuel off).length =
      (data.length - off + 32767) / 32768
  | 0, off, hfuel => absurd hfuel (by omega)
  | fuel + 1, off, hfuel => by
      by_cases hoff : off < data.length
      · rw [cdataTuplesGo, if_pos hoff]
        simp only [List.length_cons]
        rw [cdataTuplesGo_length deflate compress data fuel
          (off + min 32768 (data.length - off)) (by omega)]
        omega
      · rw [cdataTuplesGo, if_neg hoff]
        simp only [List.length_nil]
        omega

theorem cdataTuplesGo_get_uncomp
    (deflate : List Nat → List Nat → Bool → List Nat)
    (compress : Bool) (data : List Nat) :
    ∀ (fuel off : Nat), data.length - off < fuel →
    ∀ (i : Nat) (t : Nat × Nat × List Nat),
    (cdataTuplesGo deflate compress data fuel off).get? i = some t →
    t.2.1 = ((data.drop (off + 32768 * i)).take 32768).length
  | 0, off, hfuel, _, _, _ => absurd hfuel (by omega)
  | fuel + 1, off, hfuel, i, t, h => by
      by_cases hoff : off < data.length
      · rw [cdataTuplesGo, if_pos hoff] at h
        match i with
        | 0 =>
            simp only [List.get?] at h
            rcases Option.some.injEq _ _ ▸ h with rfl
            simp [List.length_take, List.length_drop]
        | i + 1 =>
            simp only [List.get?] at h
            have hcs : min 32768 (data.length - off) = 32768 := by
              by_contra hne
              have h0 : data.length -
                  (off + min 32768 (data.length - off)) = 0 := by omega
              have hlen := cdataTuplesGo_length deflate compress data fuel
                (off + min 32768 (data.length - off)) (by omega)
              rw [h0] at hlen
              obtain ⟨hlt, -⟩ := List.get?_eq_some.1 h
              omega
            have ih := cdataTuplesGo_get_uncomp deflate compress data fuel
              (off + min 32768 (data.length - off)) (by omega) i t h
            rw [hcs] at ih
            have harith : off + 32768 * (i + 1) = off + 32768 + 32768 * i := by
              ring
            rw [harith]
            exact ih
      · rw [cdataTuplesGo, if_neg hoff] at h
        exact absurd h (by simp)

theorem blockBytesP_uncomp_field (t : Nat × Nat × List Nat) :
    ((blockBytesP t).drop 6).take 2 = encU16 t.2.1 := by
  rcases t with ⟨cs, lu, c⟩
  simp only [blockBytesP, encU32, encU16]
  rfl

/-- Claim C8: a successful `make_cdatas data` run yields exactly
`ceil(data.length / 32768)` blocks, one per consecutive chunk
`data[32768*i : 32768*(i+1)]` of at most 32768 bytes, each block's
uncompressed-length field (bytes 6..7, little-endian) holding that chunk's
length; in particular any 40000-byte input spans more than one block. -/
theorem c8_make_cdatas_chunking
    (deflate : List Nat → List Nat → Bool → List Nat)
    (data : List Nat) (compress : Bool) (res : List (List Nat))
    (h : make_cdatas deflate data compress = .ok res) :
    res.length = (data.length + 32767) / 32768 ∧
    (∀ (i : Nat) (blk : List Nat), res.get? i = some blk →
      (blk.drop 6).take 2 =
        encU16 ((data.drop (32768 * i)).take 32768).length ∧
      ((data.drop (32768 * i)).take 32768).length ≤ 32768) ∧
    (data.length = 40000 → 1 < res.length) := by
  have hfuel : data.length - 0 < data.length + 1 := by omega
  obtain ⟨hres, -⟩ :=
    make_cdatas_go_inv deflate compress data (data.length + 1) 0 res hfuel h
  have hlen : res.length = (data.length + 32767) / 32768 := by
    rw [hres, List.length_map]
    have := cdataTuplesGo_length deflate compress data (data.length + 1) 0 hfuel
    simpa using this
  refine ⟨hlen, ?_, ?_⟩
  · intro i blk hblk
    rw [hres, List.get?_map] at hblk
    rcases ht : (cdataTuplesGo deflate compress data (data.length + 1) 0).get? i
      with _ | t
    · rw [ht] at hblk
      exact absurd hblk (by simp)
    · rw [ht] at hblk
      simp only [Option.map_some', Option.some.injEq] at hblk
      subst hblk
      have hu := cdataTuplesGo_get_uncomp deflate compress data
        (data.length + 1) 0 hfuel i t ht
      rw [blockBytesP_uncomp_field, hu]
      refine ⟨by simp, ?_⟩
      simp [List.length_take]
  · intro h40
    rw [hlen, h40]
    omega

/-- Claim C8 witness: `make_cdatas` on the 3-byte buffer `[1,2,3]`,
uncompressed, evaluated concretely. -/
theorem c8_make_cdatas_chunking_witness :
    (([[0, 2, 2, 0, 3, 0, 3, 0, 1, 2, 3]] : List (List Nat)).length =
      (([1, 2, 3] : List Nat).length + 32767) / 32768) ∧
    (∀ (i : Nat) (blk : List Nat),
      ([[0, 2, 2, 0, 3, 0, 3, 0, 1, 2, 3]] : List (List Nat)).get? i =
        some blk →
      (blk.drop 6).take 2 =
        encU16 ((([1, 2, 3] : List Nat).drop (32768 * i)).take 32768).length ∧
      ((([1, 2, 3] : List Nat).drop (32768 * i)).take 32768).length ≤ 32768) ∧
    (([1, 2, 3] : List Nat).length = 40000 →
      1 < ([[0, 2, 2, 0, 3, 0, 3, 0, 1, 2, 3]] : List (List Nat)).length) :=
  c8_make_cdatas_chunking idDeflate [1, 2, 3] false
    [[0, 2, 2, 0, 3, 0, 3, 0, 1, 2, 3]] rfl

/-! ### Pure descriptions of the writer's output layout (success case) -/

/-- The `CFDATA` tuples of one folder's stream. -/
def folTuples (deflate : List Nat → List Nat → Bool → List Nat)
    (compress : Bool) (fol : List (List Nat × List Nat)) :
    List (Nat × Nat × List Nat) :=
  cdataTuples deflate compress (folderData fol)

/-- Total on-disk byte count of a tuple list's blocks. -/
def sizeSum : List (Nat × Nat × List Nat) → Nat
  | [] => 0
  | t :: rest => (8 + t.2.2.length) + sizeSum rest

/-- The 36-byte cabinet header with `cbCabinet = T` and `coffFiles = F`. -/
def hdrP (T F nF nFi : Nat) : List Nat :=
  [77, 83, 67, 70] ++ encU32 0 ++ encU32 T ++ encU32 0 ++ encU32 F ++
    encU32 0 ++ [3, 1] ++ encU16 nF ++ encU16 nFi ++ encU16 0 ++ encU16 42 ++
    encU16 0

/-- Folder directory before backpatching (all `coffCabStart` zero). -/
def fd0P (deflate : List Nat → List Nat → Bool → List Nat) (compress : Bool)
    (ct : Nat) : List (List (List Nat × List Nat)) → List Nat
  | [] => []
  | fol :: rest =>
      encU32 0 ++ encU16 (folTuples deflate compress fol).length ++
        encU16 ct ++ fd0P deflate compress ct rest

/-- Folder directory after backpatching, `ds` the running data offset. -/
def fdP (deflate : List Nat → List Nat → Bool → List Nat) (compress : Bool)
    (ct : Nat) : List (List (List Nat × List Nat)) → Nat → List Nat
  | [], _ => []
  | fol :: rest, ds =>
      encU32 ds ++ encU16 (folTuples deflate compress fol).length ++
        encU16 ct ++
        fdP deflate compress ct rest (ds + sizeSum (folTuples deflate compress fol))

/-- The folder records the parser recovers from `fdP`. -/
def folderRecsP (deflate : List Nat → List Nat → Bool → List Nat)
    (compress : Bool) (ct : Nat) :
    List (List (List Nat × List Nat)) → Nat → List CFFolderRec
  | [], _ => []
  | fol :: rest, ds =>
      { coffCabStart := ds, cCFData := (folTuples deflate compress fol).length,
        typeCompress := ct, abReserve := [] } ::
        folderRecsP deflate compress ct rest
          (ds + sizeSum (folTuples deflate compress fol))

/-- The backpatch success conditions of the data-section loop. -/
def dsOkP (deflate : List Nat → List Nat → Bool → List Nat) (compress : Bool) :
    List (List (List Nat × List Nat)) → Nat → Prop
  | [], _ => True
  | fol :: rest, L =>
      L < 4294967296 ∧
        dsOkP deflate compress rest (L + sizeSum (folTuples deflate compress fol))

/-- One file-directory entry's bytes. -/
def fileEntryP (i : Nat) (t : Nat × Nat × List Nat) : List Nat :=
  encU32 t.1 ++ encU32 t.2.1 ++ encU16 i ++ [0, 0, 0, 0, 0, 0] ++ t.2.2 ++ [0]

/-- The whole file directory's bytes, folders indexed from `i`. -/
def fileDirP : Nat → List (List (List Nat × List Nat)) → List Nat
  | _, [] => []
  | i, fol :: rest =>
      ((fileMeta 0 fol).map (fileEntryP i)).flatten ++ fileDirP (i + 1) rest

/-- The file record the parser recovers from one `fileEntryP`. -/
def fileRecP (i : Nat) (t : Nat × Nat × List Nat) : CFFileRec :=
  { cbFile := t.1, uoffFolderStart := t.2.1, iFolder := i, date := 0,
    time := 0, attribs := 0, szName := t.2.2 }

/-- The file records the parser recovers from `fileDirP`. -/
def fileRecsP : Nat → List (List (List Nat × List Nat)) → List CFFileRec
  | _, [] => []
  | i, fol :: rest =>
      (fileMeta 0 fol).map (fileRecP i) ++ fileRecsP (i + 1) rest

/-- The data record the parser recovers from a block whose suffix of the
buffer is the blocks of `t :: rest`. -/
def dataRecOf (t : Nat × Nat × List Nat) (rest : List (Nat × Nat × List Nat)) :
    CFDataRec :=
  { csum := t.1, cbData := t.2.2.length, cbUncomp := t.2.1, abReserve := [],
    ab := t.2.2, raw := ((t :: rest).map blockBytesP).flatten,
    size := 8 + t.2.2.length }

def dataRecsP : List (Nat × Nat × List Nat) → List CFDataRec
  | [] => []
  | t :: rest => dataRecOf t rest :: dataRecsP rest

def dataMapP : Nat → List (Nat × Nat × List Nat) → List (Nat × CFDataRec)
  | _, [] => []
  | off, t :: rest =>
      (off, dataRecOf t rest) :: dataMapP (off + (8 + t.2.2.length)) rest

/-- All folders' tuples, in folder order. -/
def allTuples (deflate : List Nat → List Nat → Bool → List Nat)
    (compress : Bool) (layout : List (List (List Nat × List Nat))) :
    List (Nat × Nat × List Nat) :=
  (layout.map (fun fol => folTuples deflate compress fol)).flatten

/-- Per-folder writer state as produced by a successful `writeFolderDir`. -/
def wsP (deflate : List Nat → List Nat → Bool → List Nat) (compress : Bool) :
    List (List (List Nat × List Nat)) → Nat → List WFolder
  | [], _ => []
  | fol :: rest, base =>
      { cdata := (folTuples deflate compress fol).map blockBytesP,
        cOff := base, files := fileMeta 0 fol } ::
        wsP deflate compress rest (base + 8)

/-! ### Decode-of-encode lemmas -/

theorem readU16s_enc (v : Nat) (r : List Nat) (h : v < 65536) :
    readU16s (encU16 v ++ r) = .ok (v, r) := by
  simp only [encU16, List.cons_append, List.nil_append, readU16s,
    Except.ok.injEq, Prod.mk.injEq]
  exact ⟨by omega, trivial⟩

theorem readU32s_enc (v : Nat) (r : List Nat) (h : v < 4294967296) :
    readU32s (encU32 v ++ r) = .ok (v, r) := by
  simp only [encU32, List.cons_append, List.nil_append, readU32s,
    Except.ok.injEq, Prod.mk.injEq]
  exact ⟨by omega, trivial⟩

theorem readNs_exact (l r : List Nat) : readNs l.length (l ++ r) = .ok (l, r) := by
  rw [readNs, if_pos (by simp)]
  simp [List.take_left, List.drop_left]

theorem readNs_zero (l : List Nat) : readNs 0 l = .ok ([], l) := by
  rw [readNs, if_pos (by simp)]
  simp

theorem readCString_name : ∀ (name : List Nat), (∀ b ∈ name, b ≠ 0) →
    ∀ (r : List Nat), readCString (name ++ 0 :: r) = .ok (name, r)
  | [], _, r => by simp [readCString]
  | b :: name, hb, r => by
      have hb0 : b ≠ 0 := hb b (by simp)
      simp only [List.cons_append, readCString, if_neg hb0, List.append_eq]
      rw [readCString_name name (fun x hx => hb x (by simp [hx])) r]
      rfl

/-- The whole data section's bytes, folder by folder. -/
def dataSecBytes (deflate : List Nat → List Nat → Bool → List Nat)
    (compress : Bool) (gs : List (List (List Nat × List Nat))) : List Nat :=
  (gs.map (fun fol =>
    ((folTuples deflate compress fol).map blockBytesP).flatten)).flatten

theorem blockBytesP_length (t : Nat × Nat × List Nat) :
    (blockBytesP t).length = 8 + t.2.2.length := by
  simp [blockBytesP, encU32, encU16]
  omega

theorem flatten_blocks_length : ∀ (ts : List (Nat × Nat × List Nat)),
    ((ts.map blockBytesP).flatten).length = sizeSum ts
  | [] => rfl
  | t :: rest => by
      simp only [List.map_cons, List.flatten_cons, List.length_append,
        flatten_blocks_length rest, blockBytesP_length, sizeSum]

theorem hdrP_length (T F nF nFi : Nat) : (hdrP T F nF nFi).length = 36 := by
  simp [hdrP, encU32, encU16]

theorem fd0P_length (deflate : List Nat → List Nat → Bool → List Nat)
    (compress : Bool) (ct : Nat) :
    ∀ (gs : List (List (List Nat × List Nat))),
    (fd0P deflate compress ct gs).length = 8 * gs.length
  | [] => rfl
  | fol :: rest => by
      simp only [fd0P, List.length_append, fd0P_length deflate compress ct rest,
        List.length_cons]
      simp [encU32, encU16]
      try omega

theorem fdP_length (deflate : List Nat → List Nat → Bool → List Nat)
    (compress : Bool) (ct : Nat) :
    ∀ (gs : List (List (List Nat × List Nat))) (ds : Nat),
    (fdP deflate compress ct gs ds).length = 8 * gs.length
  | [], _ => rfl
  | fol :: rest, ds => by
      simp only [fdP, List.length_append, fdP_length deflate compress ct rest,
        List.length_cons]
      simp [encU32, encU16]
      try omega

theorem cdataTuplesGo_csum_ok (deflate : List Nat → List Nat → Bool → List Nat)
    (compress : Bool) (data : List Nat) :
    ∀ (fuel off : Nat) (t : Nat × Nat × List Nat),
    t ∈ cdataTuplesGo deflate compress data fuel off →
    t.1 = checksum (encU16 t.2.2.length ++ encU16 t.2.1 ++ t.2.2) 0
  | 0, off, t, ht => absurd ht (by simp [cdataTuplesGo])
  | fuel + 1, off, t, ht => by
      by_cases hoff : off < data.length
      · rw [cdataTuplesGo, if_pos hoff] at ht
        rcases List.mem_cons.1 ht with rfl | ht2
        · rfl
        · exact cdataTuplesGo_csum_ok deflate compress data fuel _ t ht2
      · rw [cdataTuplesGo, if_neg hoff] at ht
        exact absurd ht (by simp)

theorem cdataTuplesGo_flatten_payloads
    (deflate : List Nat → List Nat → Bool → List Nat) (data : List Nat) :
    ∀ (fuel off : Nat), data.length - off < fuel →
    ((cdataTuplesGo deflate false data fuel off).map (fun t => t.2.2)).flatten =
      data.drop off
  | 0, off, hfuel => absurd hfuel (by omega)
  | fuel + 1, off, hfuel => by
      by_cases hoff : off < data.length
      · rw [cdataTuplesGo, if_pos hoff]
        simp only [Bool.false_eq_true, if_false, List.map_cons,
          List.flatten_cons]
        rw [cdataTuplesGo_flatten_payloads deflate data fuel
          (off + min 32768 (data.length - off)) (by omega)]
        have hdd : data.drop (off + min 32768 (data.length - off)) =
            (data.drop off).drop (min 32768 (data.length - off)) := by
          rw [List.drop_drop]
          try (congr 1; omega)
        rw [hdd, List.take_append_drop]
      · rw [cdataTuplesGo, if_neg hoff]
        simp only [List.map_nil, List.flatten_nil]
        rw [List.drop_eq_nil_of_le (by omega)]

/-- Top-level inversion for `make_cdatas`. -/
theorem make_cdatas_inv (deflate : List Nat → List Nat → Bool → List Nat)
    (data : List Nat) (compress : Bool) (res : List (List Nat))
    (h : make_cdatas deflate data compress = .ok res) :
    res = (cdataTuples deflate compress data).map blockBytesP ∧
    ∀ t ∈ cdataTuples deflate compress data,
      t.1 < 4294967296 ∧ t.2.1 < 65536 ∧ t.2.2.length < 65536 ∧
        ∀ b ∈ t.2.2, b < 256 :=
  make_cdatas_go_inv deflate compress data (data.length + 1) 0 res (by omega) h

/-- Inversion for the folder-directory write loop. -/
theorem writeFolderDir_inv (deflate : List Nat → List Nat → Bool → List Nat)
    (compress : Bool) :
    ∀ (layout : List (List (List Nat × List Nat))) (buf buf' : List Nat)
      (ws : List WFolder),
    writeFolderDir deflate compress layout buf = .ok (buf', ws) →
    ws = wsP deflate compress layout buf.length ∧
    buf' = buf ++ fd0P deflate compress (if compress then 1 else 0) layout ∧
    ∀ fol ∈ layout, (folTuples deflate compress fol).length < 65536 ∧
      ∀ t ∈ folTuples deflate compress fol,
        t.1 < 4294967296 ∧ t.2.1 < 65536 ∧ t.2.2.length < 65536
  | [], buf, buf', ws, h => by
      simp only [writeFolderDir, Except.ok.injEq, Prod.mk.injEq] at h
      obtain ⟨rfl, rfl⟩ := h
      exact ⟨rfl, by simp [fd0P, wsP], by simp⟩
  | fol :: rest, buf, buf', ws, h => by
      simp only [writeFolderDir] at h
      rcases h1 : make_cdatas deflate (folderData fol) compress with e | cdata
      · rw [h1] at h; exact absurd h (by simp [bind, Except.bind])
      rw [h1] at h
      simp only [bind, Except.bind] at h
      rcases h2 : writeU16 cdata.length with e | e1
      · rw [h2] at h; exact absurd h (by simp)
      rw [h2] at h
      simp only [] at h
      rcases h3 : writeU16 (if compress then 1 else 0) with e | e2
      · rw [h3] at h; exact absurd h (by simp)
      rw [h3] at h
      simp only [] at h
      rcases h4 : writeFolderDir deflate compress rest
          (buf ++ encU32 0 ++ e1 ++ e2) with e | p
      · rw [h4] at h; exact absurd h (by simp)
      rw [h4] at h
      obtain ⟨buf3, ws2⟩ := p
      simp only [pure, Except.pure, Except.ok.injEq, Prod.mk.injEq] at h
      obtain ⟨rfl, rfl⟩ := h
      obtain ⟨htup, hbounds⟩ := make_cdatas_inv deflate (folderData fol)
        compress cdata h1
      obtain ⟨hlen16, rfl⟩ := writeU16_ok h2
      obtain ⟨-, rfl⟩ := writeU16_ok h3
      obtain ⟨hws, hbuf, hrest⟩ :=
        writeFolderDir_inv deflate compress rest _ _ _ h4
      have hculen : cdata.length = (folTuples deflate compress fol).length := by
        rw [htup, List.length_map]
        rfl
      refine ⟨?_, ?_, ?_⟩
      · rw [hws]
        simp only [wsP, folTuples]
        have hblen : (buf ++ encU32 0 ++ encU16 cdata.length ++
            encU16 (if compress then 1 else 0)).length = buf.length + 8 := by
          simp [encU32, encU16]
        rw [hblen, htup]
      · rw [hbuf, hculen]
        simp only [fd0P]
        simp [List.append_assoc]
      · intro g hg
        rcases List.mem_cons.1 hg with rfl | hg2
        · refine ⟨by rw [← hculen]; exact hlen16, ?_⟩
          intro t ht
          obtain ⟨ha, hb, hc, -⟩ := hbounds t ht
          exact ⟨ha, hb, hc⟩
        · exact hrest g hg2

/-- Inversion for one folder's file-entry write loop. -/
theorem writeFileEntries_inv (i : Nat) :
    ∀ (fm : List (Nat × Nat × List Nat)) (buf buf' : List Nat),
    writeFileEntries i fm buf = .ok buf' →
    buf' = buf ++ (fm.map (fileEntryP i)).flatten ∧
    ∀ t ∈ fm, t.1 < 4294967296 ∧ t.2.1 < 4294967296
  | [], buf, buf', h => by
      simp only [writeFileEntries, Except.ok.injEq] at h
      subst h
      exact ⟨by simp, by simp⟩
  | (fsize, foff, name) :: rest, buf, buf', h => by
      simp only [writeFileEntries] at h
      rcases h1 : writeU32 fsize with e | b1
      · rw [h1] at h; exact absurd h (by simp [bind, Except.bind])
      rw [h1] at h
      simp only [bind, Except.bind] at h
      rcases h2 : writeU32 foff with e | b2
      · rw [h2] at h; exact absurd h (by simp)
      rw [h2] at h
      simp only [] at h
      rcases h3 : writeU16 i with e | b3
      · rw [h3] at h; exact absurd h (by simp)
      rw [h3] at h
      simp only [] at h
      rcases h4 : checkBytes name with e | nm
      · rw [h4] at h; exact absurd h (by simp)
      rw [h4] at h
      simp only [] at h
      obtain ⟨hs32, rfl⟩ := writeU32_ok h1
      obtain ⟨ho32, rfl⟩ := writeU32_ok h2
      obtain ⟨hi16, rfl⟩ := writeU16_ok h3
      obtain ⟨rfl, -⟩ := checkBytes_ok h4
      obtain ⟨hrec, hbounds⟩ := writeFileEntries_inv i rest _ _ h
      refine ⟨?_, ?_⟩
      · rw [hrec]
        simp only [List.map_cons, List.flatten_cons, fileEntryP, encU16]
        simp [List.append_assoc]
      · intro t ht
        rcases List.mem_cons.1 ht with rfl | ht2
        · exact ⟨hs32, ho32⟩
        · exact hbounds t ht2

/-- Inversion for the file-directory write loop over `wsP` state. -/
theorem writeFileDir_wsP_inv (deflate : List Nat → List Nat → Bool → List Nat)
    (compress : Bool) :
    ∀ (layout : List (List (List Nat × List Nat))) (i base : Nat)
      (buf buf' : List Nat),
    writeFileDir i (wsP deflate compress layout base) buf = .ok buf' →
    buf' = buf ++ fileDirP i layout ∧
    ∀ fol ∈ layout, ∀ t ∈ fileMeta 0 fol,
      t.1 < 4294967296 ∧ t.2.1 < 4294967296
  | [], i, base, buf, buf', h => by
      simp only [wsP, writeFileDir, Except.ok.injEq] at h
      subst h
      exact ⟨by simp [fileDirP], by simp⟩
  | fol :: rest, i, base, buf, buf', h => by
      simp only [wsP, writeFileDir] at h
      rcases h1 : writeFileEntries i (fileMeta 0 fol) buf with e | buf2
      · rw [h1] at h; exact absurd h (by simp [bind, Except.bind])
      rw [h1] at h
      simp only [bind, Except.bind] at h
      obtain ⟨hchunk, hbounds1⟩ := writeFileEntries_inv i _ _ _ h1
      obtain ⟨hrest, hbounds2⟩ :=
        writeFileDir_wsP_inv deflate compress rest (i + 1) (base + 8) _ _ h
      refine ⟨?_, ?_⟩
      · rw [hrest, hchunk, fileDirP]
        simp [List.append_assoc]
      · intro g hg
        rcases List.mem_cons.1 hg with rfl | hg2
        · exact hbounds1
        · exact hbounds2 g hg2

theorem patchAt_append_left {A : List Nat} (B : List Nat) {off : Nat}
    {p : List Nat} (h : off + p.length ≤ A.length) :
    patchAt (A ++ B) off p = (patchAt A off p).map (fun l => l ++ B) := by
  rw [patchAt, patchAt, if_pos h, if_pos (by simp; omega)]
  simp only [Except.map, List.append_assoc]
  rw [List.take_append_of_le_length (by omega),
    List.drop_append_of_le_length (by omega)]

theorem drop_encU32_prefix (v : Nat) (Y : List Nat) :
    (encU32 v ++ Y).drop 4 = Y := rfl


theorem writeDataSec_wsP_inv (deflate : List Nat → List Nat → Bool → List Nat)
    (compress : Bool) (ct : Nat) :
    ∀ (gs : List (List (List Nat × List Nat))) (A B buf' : List Nat),
    writeDataSec (wsP deflate compress gs A.length)
        (A ++ fd0P deflate compress ct gs ++ B) = .ok buf' →
    buf' = A ++ fdP deflate compress ct gs
        (A.length + (fd0P deflate compress ct gs).length + B.length) ++ B ++
        dataSecBytes deflate compress gs ∧
    dsOkP deflate compress gs
      (A.length + (fd0P deflate compress ct gs).length + B.length)
  | [], A, B, buf', h => by
      simp only [wsP, writeDataSec, Except.ok.injEq] at h
      subst h
      refine ⟨?_, trivial⟩
      simp [fdP, dataSecBytes, fd0P]
  | fol :: rest, A, B, buf', h => by
      simp only [wsP, writeDataSec] at h
      rcases h1 : writeU32 (A ++ fd0P deflate compress ct (fol :: rest) ++
          B).length with e | v
      · rw [h1] at h; exact absurd h (by simp [bind, Except.bind])
      rw [h1] at h
      simp only [bind, Except.bind] at h
      rcases h2 : patchAt (A ++ fd0P deflate compress ct (fol :: rest) ++ B)
          A.length v with e | buf2
      · rw [h2] at h; exact absurd h (by simp)
      rw [h2] at h
      simp only [] at h
      obtain ⟨hL, rfl⟩ := writeU32_ok h1
      obtain ⟨hrange, hbuf2⟩ := patchAt_ok h2
      set L0 := (A ++ fd0P deflate compress ct (fol :: rest) ++ B).length
        with hL0
      have hbuf2' : buf2 = A ++ encU32 L0 ++ encU16
          (folTuples deflate compress fol).length ++ encU16 ct ++
          fd0P deflate compress ct rest ++ B := by
        rw [hbuf2]
        have h4 : (encU32 L0).length = 4 := by simp [encU32]
        rw [h4]
        have htake : (A ++ fd0P deflate compress ct (fol :: rest) ++ B).take
            A.length = A := by
          rw [List.append_assoc, List.take_left]
        have hdrop : (A ++ fd0P deflate compress ct (fol :: rest) ++ B).drop
            (A.length + 4) = encU16 (folTuples deflate compress fol).length ++
              encU16 ct ++ fd0P deflate compress ct rest ++ B := by
          rw [List.append_assoc, List.drop_append 4]
          rw [show (fd0P deflate compress ct (fol :: rest) ++ B).drop 4 =
            encU16 (folTuples deflate compress fol).length ++ encU16 ct ++
              fd0P deflate compress ct rest ++ B from by
            simp only [fd0P, List.append_assoc, List.cons_append,
              drop_encU32_prefix, encU32, List.nil_append]
            rfl]
        rw [htake, hdrop]
        simp [List.append_assoc]
      have hA' : (A ++ encU32 L0 ++ encU16
          (folTuples deflate compress fol).length ++ encU16 ct).length =
          A.length + 8 := by
        simp [encU32, encU16]
      have hbufrec : buf2 ++
          (List.map blockBytesP (folTuples deflate compress fol)).flatten =
          (A ++ encU32 L0 ++ encU16 (folTuples deflate compress fol).length ++
            encU16 ct) ++ fd0P deflate compress ct rest ++
            (B ++ ((folTuples deflate compress fol).map blockBytesP).flatten) := by
        rw [hbuf2']
        simp [List.append_assoc]
      rw [hbufrec] at h
      rw [← hA'] at h
      obtain ⟨hrec, hdsok⟩ := writeDataSec_wsP_inv deflate compress ct rest
        (A ++ encU32 L0 ++ encU16 (folTuples deflate compress fol).length ++
          encU16 ct)
        (B ++ ((folTuples deflate compress fol).map blockBytesP).flatten)
        buf' h
      have hfd0len : (fd0P deflate compress ct (fol :: rest)).length =
          8 + (fd0P deflate compress ct rest).length := by
        rw [fd0P_length, fd0P_length]
        simp
        omega
      have hL0' : (A ++ encU32 L0 ++
            encU16 (folTuples deflate compress fol).length ++
            encU16 ct).length +
          (fd0P deflate compress ct rest).length +
          (B ++ ((folTuples deflate compress fol).map blockBytesP).flatten).length =
          L0 + sizeSum (folTuples deflate compress fol) := by
        rw [hA', hL0]
        simp only [List.length_append, flatten_blocks_length]
        omega
      rw [hL0'] at hrec hdsok
      have hL0eq : A.length + (fd0P deflate compress ct (fol :: rest)).length +
          B.length = L0 := by
        rw [hL0]
        simp only [List.length_append]
        try omega
      constructor
      · rw [hrec, hL0eq]
        conv_rhs => rw [fdP]
        rw [show dataSecBytes deflate compress (fol :: rest) =
          ((folTuples deflate compress fol).map blockBytesP).flatten ++
            dataSecBytes deflate compress rest from by
            simp [dataSecBytes]]
        simp [List.append_assoc]
      · rw [hL0eq, dsOkP]
        exact ⟨hL0eq ▸ hL, hdsok⟩

theorem hdrP_patch16 (T F nF nFi v : Nat) :
    (hdrP T F nF nFi).take 16 ++ encU32 v ++ (hdrP T F nF nFi).drop 20 =
      hdrP T v nF nFi := rfl

theorem hdrP_patch8 (T F nF nFi v : Nat) :
    (hdrP T F nF nFi).take 8 ++ encU32 v ++ (hdrP T F nF nFi).drop 12 =
      hdrP v F nF nFi := rfl

theorem patchAt_eval {A : List Nat} {off : Nat} {p : List Nat}
    (h : off + p.length ≤ A.length) :
    patchAt A off p = .ok (A.take off ++ p ++ A.drop (off + p.length)) := by
  rw [patchAt, if_pos h]

theorem patchAt_ok_length {buf : List Nat} {off : Nat} {p buf' : List Nat}
    (h : patchAt buf off p = .ok buf') : buf'.length = buf.length := by
  obtain ⟨hr, rfl⟩ := patchAt_ok h
  simp only [List.length_append, List.length_take, List.length_drop]
  omega

/-- Full inversion for `make_cab`: a successful run produces exactly the
header / folder-directory / file-directory / data-section concatenation
described by the pure layout functions, together with all the range facts
the writer's `struct.pack` calls enforced. -/
theorem make_cab_inv (deflate : List Nat → List Nat → Bool → List Nat)
    (layout : List (List (List Nat × List Nat))) (compress : Bool)
    (buf : List Nat) (h : make_cab deflate layout compress = .ok buf) :
    layout.length < 65536 ∧
    (layout.map List.length).sum < 65536 ∧
    (∀ fol ∈ layout, (folTuples deflate compress fol).length < 65536 ∧
      ∀ t ∈ folTuples deflate compress fol,
        t.1 < 4294967296 ∧ t.2.1 < 65536 ∧ t.2.2.length < 65536) ∧
    (∀ fol ∈ layout, ∀ t ∈ fileMeta 0 fol,
      t.1 < 4294967296 ∧ t.2.1 < 4294967296) ∧
    dsOkP deflate compress layout
      (36 + 8 * layout.length + (fileDirP 0 layout).length) ∧
    buf.length < 4294967296 ∧
    buf = hdrP buf.length (36 + 8 * layout.length) layout.length
        (layout.map List.length).sum ++
      fdP deflate compress (if compress then 1 else 0) layout
        (36 + 8 * layout.length + (fileDirP 0 layout).length) ++
      fileDirP 0 layout ++ dataSecBytes deflate compress layout := by
  simp only [make_cab] at h
  rcases h1 : writeU16 layout.length with e | cf
  · rw [h1] at h; exact absurd h (by simp [bind, Except.bind])
  rw [h1] at h
  simp only [bind, Except.bind] at h
  rcases h2 : writeU16 (layout.map List.length).sum with e | cfi
  · rw [h2] at h; exact absurd h (by simp)
  rw [h2] at h
  simp only [] at h
  obtain ⟨hnF, rfl⟩ := writeU16_ok h1
  obtain ⟨hnFi, rfl⟩ := writeU16_ok h2
  rcases h3 : writeFolderDir deflate compress layout
      ([77, 83, 67, 70] ++ encU32 0 ++ encU32 0 ++ encU32 0 ++ encU32 0 ++
        encU32 0 ++ [3, 1] ++ encU16 layout.length ++
        encU16 (layout.map List.length).sum ++ encU16 0 ++ encU16 42 ++
        encU16 0) with e | p
  · rw [h3] at h; exact absurd h (by simp)
  rw [h3] at h
  obtain ⟨buf2, ws⟩ := p
  simp only [] at h
  have hhdr0 : ([77, 83, 67, 70] ++ encU32 0 ++ encU32 0 ++ encU32 0 ++
      encU32 0 ++ encU32 0 ++ [3, 1] ++ encU16 layout.length ++
      encU16 (layout.map List.length).sum ++ encU16 0 ++ encU16 42 ++
      encU16 0 : List Nat) =
      hdrP 0 0 layout.length (layout.map List.length).sum := rfl
  rw [hhdr0] at h3
  obtain ⟨hws, hbuf2, hfolbounds⟩ := writeFolderDir_inv deflate compress
    layout _ _ _ h3
  rw [hdrP_length] at hws
  rcases h4 : writeU32 buf2.length with e | pv
  · rw [h4] at h; exact absurd h (by simp)
  rw [h4] at h
  simp only [] at h
  obtain ⟨hF32, rfl⟩ := writeU32_ok h4
  have hbuf2len : buf2.length = 36 + 8 * layout.length := by
    rw [hbuf2]
    simp only [List.length_append, hdrP_length, fd0P_length]
  rcases h5 : patchAt buf2 16 (encU32 buf2.length) with e | buf3
  · rw [h5] at h; exact absurd h (by simp)
  rw [h5] at h
  simp only [] at h
  have hbuf3 : buf3 = hdrP 0 buf2.length layout.length
      (layout.map List.length).sum ++
      fd0P deflate compress (if compress then 1 else 0) layout := by
    conv_rhs => rw [hbuf2]
    rw [hbuf2] at h5
    have hle : 16 + (encU32 (hdrP 0 0 layout.length
        (layout.map List.length).sum ++
        fd0P deflate compress (if compress then 1 else 0) layout).length).length
        ≤ (hdrP 0 0 layout.length (layout.map List.length).sum).length := by
      simp [encU32, hdrP_length]
    rw [patchAt_append_left _ hle, patchAt_eval hle] at h5
    simp only [Except.map, Except.ok.injEq] at h5
    rw [← h5]
    have henc : (encU32 (hdrP 0 0 layout.length
        (layout.map List.length).sum ++
        fd0P deflate compress (if compress then 1 else 0) layout).length).length
        = 4 := by simp [encU32]
    rw [henc, show (16 : Nat) + 4 = 20 from rfl, hdrP_patch16]
  rcases h6 : writeFileDir 0 ws buf3 with e | buf4
  · rw [h6] at h; exact absurd h (by simp)
  rw [h6] at h
  simp only [] at h
  rw [hws] at h6
  obtain ⟨hbuf4, hfilebounds⟩ :=
    writeFileDir_wsP_inv deflate compress layout 0 36 _ _ h6
  rcases h7 : writeDataSec ws buf4 with e | buf5
  · rw [h7] at h; exact absurd h (by simp)
  rw [h7] at h
  simp only [] at h
  rw [hws, hbuf4, hbuf3] at h7
  have hA36 : (hdrP 0 buf2.length layout.length
      (layout.map List.length).sum).length = 36 := hdrP_length _ _ _ _
  rw [← hA36] at h7
  rw [List.append_assoc (hdrP 0 buf2.length layout.length
    (layout.map List.length).sum)] at h7
  rw [← List.append_assoc (hdrP 0 buf2.length layout.length
    (layout.map List.length).sum)] at h7
  obtain ⟨hbuf5, hdsok⟩ := writeDataSec_wsP_inv deflate compress
    (if compress then 1 else 0) layout _ _ _ h7
  rcases h8 : writeU32 buf5.length with e | tv
  · rw [h8] at h; exact absurd h (by simp)
  rw [h8] at h
  simp only [] at h
  obtain ⟨hT32, rfl⟩ := writeU32_ok h8
  have hL0 : (hdrP 0 buf2.length layout.length
        (layout.map List.length).sum).length +
      (fd0P deflate compress (if compress then 1 else 0) layout).length +
      (fileDirP 0 layout).length =
      36 + 8 * layout.length + (fileDirP 0 layout).length := by
    rw [hdrP_length, fd0P_length]
  rw [hL0] at hbuf5 hdsok
  have hbuflen : buf.length = buf5.length := patchAt_ok_length h
  obtain ⟨hrange9, hbuf9⟩ := patchAt_ok h
  rw [hbuf2len] at hbuf5
  have hsplit : buf5 = hdrP 0 (36 + 8 * layout.length) layout.length
      (layout.map List.length).sum ++
      (fdP deflate compress (if compress then 1 else 0) layout
        (36 + 8 * layout.length + (fileDirP 0 layout).length) ++
      (fileDirP 0 layout ++ dataSecBytes deflate compress layout)) := by
    rw [hbuf5]
    simp [List.append_assoc]
  have htake8 : buf5.take 8 = (hdrP 0 (36 + 8 * layout.length) layout.length
      (layout.map List.length).sum).take 8 := by
    rw [hsplit, List.take_append_of_le_length (by rw [hdrP_length]; omega)]
  have hdrop12 : buf5.drop 12 = (hdrP 0 (36 + 8 * layout.length) layout.length
      (layout.map List.length).sum).drop 12 ++
      (fdP deflate compress (if compress then 1 else 0) layout
        (36 + 8 * layout.length + (fileDirP 0 layout).length) ++
      (fileDirP 0 layout ++ dataSecBytes deflate compress layout)) := by
    rw [hsplit, List.drop_append_of_le_length (by rw [hdrP_length]; omega)]
  have henc4 : (encU32 buf5.length).length = 4 := by simp [encU32]
  have hbuffinal : buf = hdrP buf5.length (36 + 8 * layout.length)
      layout.length (layout.map List.length).sum ++
      fdP deflate compress (if compress then 1 else 0) layout
        (36 + 8 * layout.length + (fileDirP 0 layout).length) ++
      fileDirP 0 layout ++ dataSecBytes deflate compress layout := by
    rw [hbuf9, henc4, htake8, hdrop12]
    rw [← List.append_assoc, ← List.append_assoc, hdrP_patch8]
    simp [List.append_assoc]
  refine ⟨hnF, hnFi, ?_, hfilebounds, hdsok, hbuflen ▸ hT32, ?_⟩
  · intro fol hfol
    exact hfolbounds fol hfol
  · rw [hbuflen]
    exact hbuffinal

/-- Parsing the backpatched folder directory recovers `folderRecsP`. -/
theorem parseFolders_fdP (deflate : List Nat → List Nat → Bool → List Nat)
    (compress : Bool) (ct : Nat) (hct : ct < 65536) :
    ∀ (gs : List (List (List Nat × List Nat))) (ds : Nat) (rest : List Nat),
    dsOkP deflate compress gs ds →
    (∀ fol ∈ gs, (folTuples deflate compress fol).length < 65536) →
    parseFolders 0 gs.length (fdP deflate compress ct gs ds ++ rest) =
      .ok (folderRecsP deflate compress ct gs ds, rest)
  | [], ds, rest, _, _ => by
      simp [parseFolders, fdP, folderRecsP]
  | fol :: gsr, ds, rest, hds, hb => by
      obtain ⟨hds32, hdsr⟩ := hds
      have hnb : (folTuples deflate compress fol).length < 65536 :=
        hb fol (by simp)
      simp only [List.length_cons, parseFolders, fdP, List.append_assoc]
      rw [readU32s_enc ds _ hds32]
      simp only [bind, Except.bind]
      rw [readU16s_enc _ _ hnb]
      simp only [] 
      rw [readU16s_enc ct _ hct]
      simp only []
      rw [readNs_zero]
      simp only []
      rw [parseFolders_fdP deflate compress ct hct gsr _
        rest hdsr (fun g hg => hb g (by simp [hg]))]
      simp [folderRecsP]

theorem fileMeta_length : ∀ (o : Nat) (fol : List (List Nat × List Nat)),
    (fileMeta o fol).length = fol.length
  | _, [] => rfl
  | o, (fn, d) :: rest => by
      simp only [fileMeta, List.length_cons, fileMeta_length (o + d.length) rest]

theorem fileMeta_mem : ∀ (o : Nat) (fol : List (List Nat × List Nat))
    (t : Nat × Nat × List Nat), t ∈ fileMeta o fol →
    ∃ p ∈ fol, t.2.2 = p.1 ∧ t.1 = p.2.length
  | _, [], t, ht => absurd ht (by simp [fileMeta])
  | o, (fn, d) :: rest, t, ht => by
      rw [fileMeta] at ht
      rcases List.mem_cons.1 ht with rfl | ht2
      · exact ⟨(fn, d), by simp, rfl, rfl⟩
      · obtain ⟨p, hp, he⟩ := fileMeta_mem (o + d.length) rest t ht2
        exact ⟨p, by simp [hp], he⟩

theorem readU16s_zeros (r : List Nat) : readU16s (0 :: 0 :: r) = .ok (0, r) := by
  simp [readU16s]

/-- Parsing one folder's consecutive file entries. -/
theorem parseFiles_entries (i : Nat) (hi : i < 65536) :
    ∀ (fm : List (Nat × Nat × List Nat)) (k : Nat) (X : List Nat)
      (recs' : List CFFileRec) (r' : List Nat),
    (∀ t ∈ fm, t.1 < 4294967296 ∧ t.2.1 < 4294967296 ∧ ∀ b ∈ t.2.2, b ≠ 0) →
    parseFiles k X = .ok (recs', r') →
    parseFiles (fm.length + k) ((fm.map (fileEntryP i)).flatten ++ X) =
      .ok (fm.map (fileRecP i) ++ recs', r')
  | [], k, X, recs', r', _, hk => by
      simpa using hk
  | t :: fm, k, X, recs', r', hb, hk => by
      obtain ⟨h1, h2, h3⟩ := hb t (by simp)
      have hcnt : (t :: fm).length + k = (fm.length + k) + 1 := by
        simp only [List.length_cons]
        omega
      rw [hcnt]
      simp only [List.map_cons, List.flatten_cons, fileEntryP,
        List.append_assoc, parseFiles]
      rw [readU32s_enc _ _ h1]
      simp only [bind, Except.bind]
      rw [readU32s_enc _ _ h2]
      simp only []
      rw [readU16s_enc i _ hi]
      simp only []
      have hz : ([0, 0, 0, 0, 0, 0] : List Nat) ++
          (t.2.2 ++ ([0] ++ ((fm.map (fileEntryP i)).flatten ++ X))) =
          0 :: 0 :: (0 :: 0 :: (0 :: 0 :: (t.2.2 ++
            0 :: ((fm.map (fileEntryP i)).flatten ++ X)))) := rfl
      rw [hz, readU16s_zeros]
      simp only []
      rw [readU16s_zeros]
      simp only []
      rw [readU16s_zeros]
      simp only []
      rw [readCString_name t.2.2 h3]
      simp only []
      rw [parseFiles_entries i hi fm k X recs' r'
        (fun u hu => hb u (by simp [hu])) hk]
      simp [fileRecP]

/-- Parsing the whole file directory recovers `fileRecsP`. -/
theorem parseFiles_fileDirP :
    ∀ (gs : List (List (List Nat × List Nat))) (i0 : Nat),
    i0 + gs.length ≤ 65536 →
    (∀ fol ∈ gs, ∀ t ∈ fileMeta 0 fol,
      t.1 < 4294967296 ∧ t.2.1 < 4294967296 ∧ ∀ b ∈ t.2.2, b ≠ 0) →
    ∀ (X : List Nat),
    parseFiles (gs.map List.length).sum (fileDirP i0 gs ++ X) =
      .ok (fileRecsP i0 gs, X)
  | [], i0, _, _, X => by simp [parseFiles, fileDirP, fileRecsP]
  | fol :: gsr, i0, hle, hb, X => by
      have hi0 : i0 < 65536 := by
        simp only [List.length_cons] at hle
        omega
      have hsum : ((fol :: gsr).map List.length).sum =
          (fileMeta 0 fol).length + (gsr.map List.length).sum := by
        simp [fileMeta_length]
      rw [hsum]
      simp only [fileDirP, List.append_assoc, fileRecsP]
      rw [parseFiles_entries i0 hi0 (fileMeta 0 fol)
        (gsr.map List.length).sum (fileDirP (i0 + 1) gsr ++ X)
        (fileRecsP (i0 + 1) gsr) X (hb fol (by simp))
        (parseFiles_fileDirP gsr (i0 + 1)
          (by simp only [List.length_cons] at hle; omega)
          (fun g hg => hb g (by simp [hg])) X)]

/-- Parsing the data section until end-of-buffer recovers `dataRecsP` and
the offset-indexed `dataMapP`. -/
theorem parseDatasGo_blocks :
    ∀ (ts : List (Nat × Nat × List Nat)) (fuel off : Nat),
    ((ts.map blockBytesP).flatten).length < fuel →
    (∀ t ∈ ts, t.1 < 4294967296 ∧ t.2.1 < 65536 ∧ t.2.2.length < 65536) →
    parseDatasGo 0 fuel off ((ts.map blockBytesP).flatten) =
      .ok (dataRecsP ts, dataMapP off ts)
  | [], fuel, off, hfuel, _ => by
      match fuel, hfuel with
      | f + 1, _ =>
          simp [parseDatasGo, dataRecsP, dataMapP]
  | t :: ts, fuel, off, hfuel, hb => by
      obtain ⟨h1, h2, h3⟩ := hb t (by simp)
      have hblen : (blockBytesP t).length = 8 + t.2.2.length :=
        blockBytesP_length t
      match fuel, hfuel with
      | f + 1, hfuel =>
          have hne : (((t :: ts).map blockBytesP).flatten).isEmpty = false := by
            simp only [List.map_cons, List.flatten_cons, blockBytesP, encU32,
              List.cons_append]
            rfl
          rw [parseDatasGo, hne]
          simp only [Bool.false_eq_true, if_false]
          have hshape : ((t :: ts).map blockBytesP).flatten =
              encU32 t.1 ++ (encU16 t.2.2.length ++ (encU16 t.2.1 ++
                (t.2.2 ++ (ts.map blockBytesP).flatten))) := by
            simp only [List.map_cons, List.flatten_cons, blockBytesP,
              List.append_assoc]
          rw [hshape, readU32s_enc _ _ h1]
          simp only [bind, Except.bind]
          rw [readU16s_enc _ _ h3]
          simp only []
          rw [readU16s_enc _ _ h2]
          simp only []
          rw [readNs_zero]
          simp only []
          rw [show t.2.2 ++ (ts.map blockBytesP).flatten =
            t.2.2 ++ (ts.map blockBytesP).flatten from rfl]
          rw [show readNs t.2.2.length
              (t.2.2 ++ (ts.map blockBytesP).flatten) =
            .ok (t.2.2, (ts.map blockBytesP).flatten) from
            readNs_exact t.2.2 _]
          simp only []
          have hdropsz : (encU32 t.1 ++ (encU16 t.2.2.length ++ (encU16 t.2.1 ++
              (t.2.2 ++ (ts.map blockBytesP).flatten)))).drop
                (8 + 0 + t.2.2.length) = (ts.map blockBytesP).flatten := by
            have : encU32 t.1 ++ (encU16 t.2.2.length ++ (encU16 t.2.1 ++
                (t.2.2 ++ (ts.map blockBytesP).flatten))) =
                (encU32 t.1 ++ encU16 t.2.2.length ++ encU16 t.2.1 ++ t.2.2) ++
                  (ts.map blockBytesP).flatten := by
              simp [List.append_assoc]
            rw [this]
            refine List.drop_left' ?_
            simp [encU32, encU16]
            omega
          rw [hdropsz]
          have hfr : (((ts.map blockBytesP).flatten).length) < f := by
            simp only [List.map_cons, List.flatten_cons, List.length_append,
              hblen] at hfuel
            omega
          rw [parseDatasGo_blocks ts f (off + (8 + 0 + t.2.2.length)) hfr
            (fun u hu => hb u (by simp [hu]))]
          rw [show (8 : Nat) + 0 + t.2.2.length = 8 + t.2.2.length from by
            omega]
          rw [← hshape]
          simp only [dataRecsP, dataMapP, dataRecOf, pure, Except.pure]

theorem sizeSum_append : ∀ (a b : List (Nat × Nat × List Nat)),
    sizeSum (a ++ b) = sizeSum a + sizeSum b
  | [], b => by simp [sizeSum]
  | t :: a, b => by
      simp only [List.cons_append, sizeSum, List.append_eq]
      rw [sizeSum_append a b]
      omega

theorem lookup_dataMapP_at :
    ∀ (ts1 : List (Nat × Nat × List Nat)) (t : Nat × Nat × List Nat)
      (ts2 : List (Nat × Nat × List Nat)) (off : Nat),
    List.lookup (off + sizeSum ts1) (dataMapP off (ts1 ++ t :: ts2)) =
      some (dataRecOf t ts2)
  | [], t, ts2, off => by
      simp [dataMapP, sizeSum, List.lookup]
  | u :: ts1, t, ts2, off => by
      simp only [List.cons_append, dataMapP, List.lookup]
      have hne : (off + sizeSum (u :: ts1) == off) = false := by
        simp only [sizeSum]
        have : off + (8 + u.2.2.length + sizeSum ts1) ≠ off := by omega
        simpa using this
      rw [hne]
      simp only []
      have harith : off + sizeSum (u :: ts1) =
          (off + (8 + u.2.2.length)) + sizeSum ts1 := by
        simp only [sizeSum]
        omega
      rw [harith]
      exact lookup_dataMapP_at ts1 t ts2 (off + (8 + u.2.2.length))

theorem dataRecOf_csum_slice (t : Nat × Nat × List Nat)
    (rest : List (Nat × Nat × List Nat)) :
    (((dataRecOf t rest).raw.drop 4).take ((dataRecOf t rest).size - 4)) =
      encU16 t.2.2.length ++ encU16 t.2.1 ++ t.2.2 := by
  simp only [dataRecOf, List.map_cons, List.flatten_cons, blockBytesP]
  have hdrop : ((encU32 t.1 ++ encU16 t.2.2.length ++ encU16 t.2.1 ++ t.2.2) ++
      (rest.map blockBytesP).flatten).drop 4 =
      (encU16 t.2.2.length ++ encU16 t.2.1 ++ t.2.2) ++
        (rest.map blockBytesP).flatten := by
    simp only [List.append_assoc, encU32, List.cons_append, List.nil_append]
    rfl
  rw [hdrop]
  have hsz : 8 + t.2.2.length - 4 =
      (encU16 t.2.2.length ++ encU16 t.2.1 ++ t.2.2).length := by
    simp [encU16]
    omega
  rw [hsz, List.take_left]

/-- Walking `n = |mid|` blocks starting at the offset just past `front`
returns exactly `mid`'s payloads (checksums verified). -/
theorem walkBlocks_dataMapP :
    ∀ (mid front back : List (Nat × Nat × List Nat)) (off0 : Nat),
    (∀ t ∈ mid, t.1 = checksum (encU16 t.2.2.length ++ encU16 t.2.1 ++ t.2.2) 0) →
    walkBlocks (dataMapP off0 (front ++ mid ++ back)) (off0 + sizeSum front)
        mid.length = .ok (mid.map (fun t => t.2.2))
  | [], front, back, off0, _ => by simp [walkBlocks]
  | t :: mid, front, back, off0, hcs => by
      simp only [List.length_cons, walkBlocks]
      have hl := lookup_dataMapP_at front t (mid ++ back) off0
      rw [show front ++ (t :: mid) ++ back = front ++ t :: (mid ++ back) from
        by simp] at *
      rw [hl]
      simp only []
      rw [dataRecOf_csum_slice]
      have hcond : checksum (encU16 t.2.2.length ++ encU16 t.2.1 ++ t.2.2) 0 =
          (dataRecOf t (mid ++ back)).csum := (hcs t (by simp)).symm
      rw [if_pos hcond]
      have hrec := walkBlocks_dataMapP mid (front ++ [t]) back off0
        (fun u hu => hcs u (by simp [hu]))
      rw [show (front ++ [t]) ++ mid ++ back = front ++ t :: (mid ++ back) from
        by simp] at hrec
      rw [show off0 + sizeSum (front ++ [t]) =
          (off0 + sizeSum front) + (dataRecOf t (mid ++ back)).size from by
        rw [sizeSum_append]
        simp only [sizeSum, dataRecOf]
        omega] at hrec
      rw [hrec]
      simp only [bind, Except.bind, dataRecOf, List.map_cons]

def foldersSize (deflate : List Nat → List Nat → Bool → List Nat)
    (compress : Bool) : List (List (List Nat × List Nat)) → Nat
  | [] => 0
  | fol :: rest =>
      sizeSum (folTuples deflate compress fol) + foldersSize deflate compress rest

theorem folderRecsP_append (deflate : List Nat → List Nat → Bool → List Nat)
    (compress : Bool) (ct : Nat) :
    ∀ (F G : List (List (List Nat × List Nat))) (ds : Nat),
    folderRecsP deflate compress ct (F ++ G) ds =
      folderRecsP deflate compress ct F ds ++
        folderRecsP deflate compress ct G (ds + foldersSize deflate compress F)
  | [], G, ds => by simp [folderRecsP, foldersSize]
  | fol :: F, G, ds => by
      simp only [List.cons_append, folderRecsP, foldersSize, List.append_eq]
      rw [folderRecsP_append deflate compress ct F G]
      rw [show ds + sizeSum (folTuples deflate compress fol) +
        foldersSize deflate compress F =
        ds + (sizeSum (folTuples deflate compress fol) +
          foldersSize deflate compress F) from by omega]

theorem allTuples_decomp (deflate : List Nat → List Nat → Bool → List Nat)
    (compress : Bool) (F B : List (List (List Nat × List Nat)))
    (fol : List (List Nat × List Nat)) :
    allTuples deflate compress (F ++ fol :: B) =
      allTuples deflate compress F ++ (folTuples deflate compress fol ++
        allTuples deflate compress B) := by
  simp [allTuples, folTuples]

theorem foldersSize_eq (deflate : List Nat → List Nat → Bool → List Nat)
    (compress : Bool) :
    ∀ (F : List (List (List Nat × List Nat))),
    foldersSize deflate compress F = sizeSum (allTuples deflate compress F)
  | [] => rfl
  | fol :: F => by
      simp only [foldersSize, foldersSize_eq deflate compress F, allTuples,
        List.map_cons, List.flatten_cons, sizeSum_append]
      try rfl

theorem dataSecBytes_eq (deflate : List Nat → List Nat → Bool → List Nat)
    (compress : Bool) :
    ∀ (gs : List (List (List Nat × List Nat))),
    dataSecBytes deflate compress gs =
      ((allTuples deflate compress gs).map blockBytesP).flatten
  | [] => rfl
  | fol :: gs => by
      simp only [dataSecBytes, allTuples, List.map_cons, List.flatten_cons,
        List.map_append, List.flatten_append]
      rw [show ((gs.map (fun fol =>
        ((folTuples deflate compress fol).map blockBytesP).flatten)).flatten) =
        dataSecBytes deflate compress gs from rfl]
      rw [dataSecBytes_eq deflate compress gs]
      rfl

theorem readNs_four (a b c d : Nat) (r : List Nat) :
    readNs 4 (a :: b :: c :: d :: r) = .ok ([a, b, c, d], r) := by
  rw [readNs, if_pos (by simp)]
  rfl

theorem readNs_encU32 (v : Nat) (r : List Nat) :
    readNs 4 (encU32 v ++ r) = .ok (encU32 v, r) := by
  have h := readNs_exact (encU32 v) r
  simpa [encU32] using h

theorem readU8s_cons (a : Nat) (r : List Nat) :
    readU8s (a :: r) = .ok (a, r) := rfl

theorem CABFile_init_mkLayout (deflate : List Nat → List Nat → Bool → List Nat)
    (compress : Bool) (ct : Nat) (hct : ct < 65536)
    (layout : List (List (List Nat × List Nat))) (T : Nat)
    (hT : T < 4294967296)
    (hnF : layout.length < 65536)
    (hnFi : (layout.map List.length).sum < 65536)
    (hfb : ∀ fol ∈ layout, (folTuples deflate compress fol).length < 65536 ∧
      ∀ t ∈ folTuples deflate compress fol,
        t.1 < 4294967296 ∧ t.2.1 < 65536 ∧ t.2.2.length < 65536)
    (hfile : ∀ fol ∈ layout, ∀ t ∈ fileMeta 0 fol,
      t.1 < 4294967296 ∧ t.2.1 < 4294967296 ∧ ∀ b ∈ t.2.2, b ≠ 0)
    (hds : dsOkP deflate compress layout
      (36 + 8 * layout.length + (fileDirP 0 layout).length)) :
    CABFile.init (hdrP T (36 + 8 * layout.length) layout.length
        (layout.map List.length).sum ++
      fdP deflate compress ct layout
        (36 + 8 * layout.length + (fileDirP 0 layout).length) ++
      fileDirP 0 layout ++ dataSecBytes deflate compress layout) =
      .ok { signature := [77, 83, 67, 70], cbCabinet := T,
            coffFiles := 36 + 8 * layout.length, vMinor := 3, vMajor := 1,
            cFolders := layout.length, cFiles := (layout.map List.length).sum,
            flags := 0, setID := 42, iCabinet := 0,
            cbCFHeader := none, cbCFFolder := none, cbCFData := none,
            szCabinetPrev := none, szDiskPrev := none, szCabinetNext := none,
            szDiskNext := none, abReserve := [],
            folders := folderRecsP deflate compress ct layout
              (36 + 8 * layout.length + (fileDirP 0 layout).length),
            files := fileRecsP 0 layout,
            datas := dataRecsP (allTuples deflate compress layout),
            data_off := dataMapP
              (36 + 8 * layout.length + (fileDirP 0 layout).length)
              (allTuples deflate compress layout) } := by
  have hF32 : 36 + 8 * layout.length < 4294967296 := by omega
  simp only [CABFile.init, hdrP, List.append_assoc, List.cons_append,
    List.nil_append]
  rw [readNs_four]
  simp only [bind, Except.bind]
  simp only [CABFile.afterSig]
  rw [readNs_encU32]
  simp only [bind, Except.bind]
  rw [readU32s_enc _ _ hT]
  simp only []
  rw [readNs_encU32]
  simp only []
  rw [readU32s_enc _ _ hF32]
  simp only []
  rw [readNs_encU32]
  simp only []
  rw [readU8s_cons]
  simp only []
  rw [readU8s_cons]
  simp only []
  rw [readU16s_enc _ _ hnF]
  simp only []
  rw [readU16s_enc _ _ hnFi]
  simp only []
  rw [readU16s_enc 0 _ (by omega)]
  simp only []
  rw [readU16s_enc 42 _ (by omega)]
  simp only []
  rw [readU16s_enc 0 _ (by omega)]
  simp only []
  rw [if_neg (by decide : ¬((0 : Nat) &&& 4 ≠ 0))]
  try simp only []
  rw [if_neg (by decide : ¬((0 : Nat) &&& 1 ≠ 0))]
  try simp only []
  rw [if_neg (by decide : ¬((0 : Nat) &&& 2 ≠ 0))]
  try simp only []
  simp only [Option.getD_none]
  rw [readNs_zero]
  simp only []
  rw [parseFolders_fdP deflate compress ct hct layout _ _ hds
    (fun g hg => (hfb g hg).1)]
  simp only []
  rw [parseFiles_fileDirP layout 0 (by omega) hfile]
  simp only []
  have hoff : 4 + ((encU32 0 ++ (encU32 T ++ (encU32 0 ++
      (encU32 (36 + 8 * layout.length) ++ (encU32 0 ++ 3 :: 1 ::
      (encU16 layout.length ++ (encU16 (List.map List.length layout).sum ++
      (encU16 0 ++ (encU16 42 ++ (encU16 0 ++
      (fdP deflate compress ct layout
        (36 + 8 * layout.length + (fileDirP 0 layout).length) ++
      (fileDirP 0 layout ++
        dataSecBytes deflate compress layout)))))))))))).length -
      (dataSecBytes deflate compress layout).length) =
      36 + 8 * layout.length + (fileDirP 0 layout).length := by
    simp only [List.length_append, List.length_cons, encU32, encU16,
      List.length_nil, fdP_length]
    omega
  rw [hoff]
  rw [dataSecBytes_eq deflate compress layout]
  rw [parseDatasGo_blocks (allTuples deflate compress layout) _ _
    (by omega)
    (fun t ht => by
      rw [allTuples] at ht
      obtain ⟨l, hl, htl⟩ := List.mem_flatten.1 ht
      obtain ⟨fol, hfol, rfl⟩ := List.mem_map.1 hl
      exact (hfb fol hfol).2 t htl)]

theorem list_eq_take_cons_drop {α : Type} :
    ∀ (l : List α) (k : Nat) (x : α), l.get? k = some x →
    l = l.take k ++ x :: l.drop (k + 1)
  | [], k, x, h => absurd h (by simp)
  | a :: l, 0, x, h => by
      simp only [List.get?, Option.some.injEq] at h
      subst h
      simp
  | a :: l, k + 1, x, h => by
      simp only [List.get?] at h
      have := list_eq_take_cons_drop l k x h
      simp only [List.take, List.drop, List.cons_append]
      exact congrArg (a :: ·) this

theorem folderRecsP_length (deflate : List Nat → List Nat → Bool → List Nat)
    (compress : Bool) (ct : Nat) :
    ∀ (gs : List (List (List Nat × List Nat))) (ds : Nat),
    (folderRecsP deflate compress ct gs ds).length = gs.length
  | [], _ => rfl
  | fol :: gs, ds => by
      simp only [folderRecsP, List.length_cons,
        folderRecsP_length deflate compress ct gs]

theorem fileRecsP_append : ∀ (F G : List (List (List Nat × List Nat)))
    (i0 : Nat),
    fileRecsP i0 (F ++ G) = fileRecsP i0 F ++ fileRecsP (i0 + F.length) G
  | [], G, i0 => by simp [fileRecsP]
  | fol :: F, G, i0 => by
      show fileRecsP i0 (fol :: (F ++ G)) = _
      simp only [fileRecsP, fileRecsP_append F G (i0 + 1),
        List.append_assoc, List.length_cons]
      rw [show i0 + 1 + F.length = i0 + (F.length + 1) from by omega]

theorem filterMap_fileRecsP_out (fd : List Nat) (k : Nat) :
    ∀ (gs : List (List (List Nat × List Nat))) (i0 : Nat),
    (∀ j, j < gs.length → i0 + j ≠ k) →
    (fileRecsP i0 gs).filterMap (fun fi =>
      if fi.iFolder = k then
        some (fi.szName, (fd.drop fi.uoffFolderStart).take fi.cbFile)
      else none) = []
  | [], i0, _ => rfl
  | fol :: gs, i0, h => by
      have hi0 : i0 ≠ k := by
        have := h 0 (by simp)
        omega
      simp only [fileRecsP, List.filterMap_append]
      rw [filterMap_fileRecsP_out fd k gs (i0 + 1)
        (fun j hj => by have := h (j + 1) (by simp; omega); omega)]
      rw [List.filterMap_map]
      rw [List.filterMap_eq_nil.2 (fun t ht => by
        simp [Function.comp, fileRecP, hi0])]
      simp

theorem fileMeta_slices : ∀ (fol : List (List Nat × List Nat)) (pre : List Nat),
    (fileMeta pre.length fol).map (fun t =>
      (t.2.2, ((pre ++ folderData fol).drop t.2.1).take t.1)) = fol
  | [], _ => rfl
  | (fn, d) :: rest, pre => by
      have ih := fileMeta_slices rest (pre ++ d)
      rw [List.length_append, List.append_assoc] at ih
      simp only [folderData, List.map_cons, List.flatten_cons] at ih ⊢
      simp only [fileMeta, List.map_cons]
      rw [List.drop_left, List.take_left, ih]

theorem filterMap_all_some {α β : Type} (h : α → Option β) (g : α → β)
    (he : ∀ x, h x = some (g x)) : ∀ l : List α, l.filterMap h = l.map g
  | [] => rfl
  | a :: l => by
      rw [List.filterMap_cons_some (he a), List.map_cons,
        filterMap_all_some h g he l]

theorem filterMap_fileRecsP_eq (k : Nat)
    (F B : List (List (List Nat × List Nat)))
    (fol : List (List Nat × List Nat)) (hk : F.length = k) :
    (fileRecsP 0 (F ++ fol :: B)).filterMap (fun fi =>
      if fi.iFolder = k then
        some (fi.szName,
          ((folderData fol).drop fi.uoffFolderStart).take fi.cbFile)
      else none) = fol := by
  rw [fileRecsP_append, Nat.zero_add, hk]
  simp only [fileRecsP, List.filterMap_append]
  rw [filterMap_fileRecsP_out (folderData fol) k F 0 (fun j hj => by omega)]
  rw [List.filterMap_map]
  rw [filterMap_all_some _
    (fun t => (t.2.2, ((folderData fol).drop t.2.1).take t.1))
    (fun t => by simp [Function.comp, fileRecP]) (fileMeta 0 fol)]
  rw [filterMap_fileRecsP_out (folderData fol) k B (k + 1)
    (fun j hj => by omega)]
  rw [List.nil_append, List.append_nil]
  simpa using fileMeta_slices fol []

theorem get_folder_files_parsedFields
    (deflate : List Nat → List Nat → Bool → List Nat)
    (inflate : List Nat → List Nat → Except PyErr (List Nat))
    (compress : Bool) (layout : List (List (List Nat × List Nat)))
    (DS0 : Nat) (cab : CABFile)
    (hfolders : cab.folders = folderRecsP deflate compress
      (if compress then 1 else 0) layout DS0)
    (hfiles : cab.files = fileRecsP 0 layout)
    (hdata : cab.data_off = dataMapP DS0 (allTuples deflate compress layout))
    (k : Nat) (fol : List (List Nat × List Nat))
    (hk : layout.get? k = some fol)
    (hcodec : compress = true →
      decompress_mzip inflate (mzipPayloads deflate (folderData fol)) =
        .ok (folderData fol)) :
    CABFile.get_folder_files inflate cab k = .ok fol := by
  have hklen : k < layout.length := by
    rcases List.get?_eq_some.1 hk with ⟨h, _⟩
    exact h
  obtain ⟨F, B, rfl, hF⟩ : ∃ F B, layout = F ++ fol :: B ∧ F.length = k :=
    ⟨layout.take k, layout.drop (k + 1), list_eq_take_cons_drop layout k fol hk,
      by rw [List.length_take]; omega⟩
  simp only [CABFile.get_folder_files]
  rw [hfolders, hdata, hfiles]
  rw [folderRecsP_append]
  have hget : (folderRecsP deflate compress (if compress then 1 else 0) F DS0 ++
      folderRecsP deflate compress (if compress then 1 else 0) (fol :: B)
        (DS0 + foldersSize deflate compress F)).get? k =
      some { coffCabStart := DS0 + foldersSize deflate compress F,
             cCFData := (folTuples deflate compress fol).length,
             typeCompress := if compress then 1 else 0, abReserve := [] } := by
    rw [List.get?_append_right (by rw [folderRecsP_length]; omega)]
    rw [folderRecsP_length, hF, Nat.sub_self]
    rfl
  rw [hget]
  simp only []
  rw [allTuples_decomp]
  have hcs : ∀ t ∈ folTuples deflate compress fol,
      t.1 = checksum (encU16 t.2.2.length ++ encU16 t.2.1 ++ t.2.2) 0 :=
    fun t ht => cdataTuplesGo_csum_ok deflate compress (folderData fol)
      ((folderData fol).length + 1) 0 t ht
  have hwb := walkBlocks_dataMapP (folTuples deflate compress fol)
    (allTuples deflate compress F) (allTuples deflate compress B) DS0 hcs
  rw [List.append_assoc] at hwb
  rw [← foldersSize_eq deflate compress F] at hwb
  rw [hwb]
  simp only [bind, Except.bind]
  have hdecode : decodeFolderData inflate (if compress then 1 else 0)
      ((folTuples deflate compress fol).map (fun t => t.2.2)) =
      .ok (folderData fol) := by
    cases compress with
    | false =>
        simp only [Bool.false_eq_true, if_false, decodeFolderData, reduceIte]
        have hfl := cdataTuplesGo_flatten_payloads deflate (folderData fol)
          ((folderData fol).length + 1) 0 (by omega)
        rw [List.drop_zero] at hfl
        rw [show folTuples deflate false fol = cdataTuplesGo deflate false
          (folderData fol) ((folderData fol).length + 1) 0 from rfl]
        rw [hfl]
    | true =>
        simp only [if_true, decodeFolderData, reduceIte]
        rw [show (folTuples deflate true fol).map (fun t => t.2.2) =
          mzipPayloads deflate (folderData fol) from rfl]
        exact hcodec rfl
  rw [hdecode]
  simp only [pure, Except.pure]
  rw [filterMap_fileRecsP_eq k F B fol hF]

/-- Claim C1 (corrected): the round trip is not unconditional — it requires
NUL-free file names (see the counterexample) and, under compression, an
inflate that inverts the MSZIP chain the writer produced.  Amended claim:
if `make_cab` succeeds on a layout whose file names contain no NUL byte,
and (when the compression toggle is on) the decoder reverses the produced
MSZIP chain of every folder stream, then `CABFile` parses the buffer
successfully and `get_folder_files(k)` returns, for every folder index
`k`, exactly the k-th folder's original (name, bytes) records in order. -/
theorem c1_roundtrip
    (deflate : List Nat → List Nat → Bool → List Nat)
    (inflate : List Nat → List Nat → Except PyErr (List Nat))
    (layout : List (List (List Nat × List Nat))) (compress : Bool)
    (buf : List Nat)
    (hmk : make_cab deflate layout compress = .ok buf)
    (hnames : ∀ fol ∈ layout, ∀ f ∈ fol, ∀ b ∈ f.1, b ≠ 0)
    (hcodec : compress = true → ∀ fol ∈ layout,
      decompress_mzip inflate (mzipPayloads deflate (folderData fol)) =
        .ok (folderData fol)) :
    ∃ cab, CABFile.init buf = .ok cab ∧
      ∀ k fol, layout.get? k = some fol →
        CABFile.get_folder_files inflate cab k = .ok fol := by
  obtain ⟨hnF, hnFi, hfb, hfile, hds, hlen, hbuf⟩ :=
    make_cab_inv deflate layout compress buf hmk
  have hct : (if compress then 1 else 0) < 65536 := by
    cases compress <;> simp
  have hfile' : ∀ fol ∈ layout, ∀ t ∈ fileMeta 0 fol,
      t.1 < 4294967296 ∧ t.2.1 < 4294967296 ∧ ∀ b ∈ t.2.2, b ≠ 0 := by
    intro fol hfol t ht
    obtain ⟨h1, h2⟩ := hfile fol hfol t ht
    refine ⟨h1, h2, ?_⟩
    obtain ⟨p, hp, he1, he2⟩ := fileMeta_mem 0 fol t ht
    rw [he1]
    exact hnames fol hfol p hp
  have hinit := CABFile_init_mkLayout deflate compress
    (if compress then 1 else 0) hct layout buf.length hlen hnF hnFi hfb
    hfile' hds
  rw [← hbuf] at hinit
  refine ⟨_, hinit, ?_⟩
  intro k fol hk
  exact get_folder_files_parsedFields deflate inflate compress layout
    (36 + 8 * layout.length + (fileDirP 0 layout).length) _ rfl rfl rfl
    k fol hk (fun hcmp => hcodec hcmp fol (List.get?_mem hk))

/-- Claim C1 counterexample: a layout with a single folder holding one
file whose name is the single byte 0 and whose content is empty.
`make_cab` succeeds, but parsing its output fails (the NUL-terminated
name reads back empty, desynchronising the file directory), so no call
of `get_folder_files` can ever return the original name/content pair. -/
theorem c1_counterexample :
    ∃ buf, make_cab idDeflate [[([0], [])]] false = .ok buf ∧
      CABFile.init buf = .error .structError :=
  ⟨[77, 83, 67, 70, 0, 0, 0, 0, 62, 0, 0, 0, 0, 0, 0, 0, 44, 0, 0, 0, 0, 0,
    0, 0, 3, 1, 1, 0, 1, 0, 0, 0, 42, 0, 0, 0, 62, 0, 0, 0, 0, 0, 0, 0, 0,
    0, 0, 0, 0, 0, 0, 0, 0, 0, 0, 0, 0, 0, 0, 0, 0, 0], by rfl, by rfl⟩

/-- The buffer `make_cab` produces for the witness layout
`[[([97], [1, 2, 3])]]` under compression with the identity codec. -/
def c1buf : List Nat :=
  [77, 83, 67, 70, 0, 0, 0, 0, 75, 0, 0, 0, 0, 0, 0, 0, 44, 0, 0, 0, 0, 0,
   0, 0, 3, 1, 1, 0, 1, 0, 0, 0, 42, 0, 0, 0, 62, 0, 0, 0, 1, 0, 1, 0, 3,
   0, 0, 0, 0, 0, 0, 0, 0, 0, 0, 0, 0, 0, 0, 0, 97, 0, 69, 75, 2, 2, 5, 0,
   3, 0, 67, 75, 1, 2, 3]

theorem c1_roundtrip_witness :
    make_cab idDeflate [[([97], [1, 2, 3])]] true = .ok c1buf ∧
    ∃ cab, CABFile.init c1buf = .ok cab ∧
      ∀ k fol, [[([97], [1, 2, 3])]].get? k = some fol →
        CABFile.get_folder_files idInflate cab k = .ok fol :=
  ⟨by rfl, c1_roundtrip idDeflate idInflate [[([97], [1, 2, 3])]] true c1buf
    (by rfl)
    (by decide)
    (fun _ fol hfol => by
      simp only [List.mem_singleton] at hfol
      subst hfol
      rfl)⟩
